import Mathlib

/-
  Verification of the move generator (src/src/movegen2.c) of this repository.

  Bitboards are modelled as natural numbers with 64-bit masking where the C
  code relies on 64-bit wraparound.  The position collaborator (position.c /
  bitboard.c, which are not part of this source tree) is split into
  (a) global, position-independent tables and square arithmetic, modelled
      from the spec (sections 3, 4.1, 6), and
  (b) position-dependent queries, kept abstract as fields of a `Pos`
      structure, instantiated concretely by `mkPos` below for witnesses.
  The generator functions themselves are translated line by line from
  movegen2.c.
-/

/-! ### Constants from movegen2.c / the engine headers -/

def WHITE : Nat := 0
def BLACK : Nat := 1

def PAWN : Nat := 1
def KNIGHT : Nat := 2
def BISHOP : Nat := 3
def ROOK : Nat := 4
def QUEEN : Nat := 5
def KING : Nat := 6

def CAPTURES : Nat := 0
def QUIETS : Nat := 1
def QUIET_CHECKS : Nat := 2
def EVASIONS : Nat := 3
def NON_EVASIONS : Nat := 4
def LEGAL : Nat := 5

def WHITE_OO : Nat := 1
def WHITE_OOO : Nat := 2
def BLACK_OO : Nat := 4
def BLACK_OOO : Nat := 8

def KING_SIDE : Nat := 0
def QUEEN_SIDE : Nat := 1

def SQ_G1 : Nat := 6
def SQ_C1 : Nat := 2

def RANK_6 : Nat := 5

/-- make_castling_right(c, s): bit of the castling-rights mask for color c, side s. -/
def make_castling_right (c s : Nat) : Nat :=
  1 <<< ((if s = QUEEN_SIDE then 1 else 0) + 2 * c)

/-! ### Bitboard primitives (modelled from the spec, section 3 / 4.1) -/

/-- All 64 board bits set: the universe of a 64-bit bitboard. -/
def U64 : Nat := 2 ^ 64 - 1

/-- 64-bit complement, as the C `~b` on a uint64_t. -/
def compl64 (b : Nat) : Nat := U64 ^^^ (b &&& U64)

/-- Bitboard with the single bit of square s set. -/
def sq_bb (s : Nat) : Nat := 1 <<< s

def FileABB : Nat := 0x0101010101010101
def FileHBB : Nat := 0x8080808080808080
def Rank1BB : Nat := 0xFF
def Rank2BB : Nat := 0xFF00
def Rank3BB : Nat := 0xFF0000
def Rank6BB : Nat := 0xFF0000000000
def Rank7BB : Nat := 0xFF000000000000
def Rank8BB : Nat := 0xFF00000000000000

/-- file_bb(s): bitboard of the file of square s. -/
def file_bb (s : Nat) : Nat := FileABB <<< (s % 8)

/-- rank_of(s) = s >> 3. -/
def rank_of (s : Nat) : Nat := s >>> 3

/-- relative_square(c, s) = s ^ (c * 56). -/
def relative_square (c s : Nat) : Nat := s ^^^ (c * 56)

/-- relative_rank(c, r) = r ^ (c * 7). -/
def relative_rank (c r : Nat) : Nat := r ^^^ (c * 7)

/-- Modelled from the spec: shifting a bitboard by a directional delta clips
squares that would wrap around a board edge (spec 4.1).  Only the deltas
used by the move generator are meaningful. -/
def shift_bb (delta : Int) (b : Nat) : Nat :=
  if delta = 8 then (b <<< 8) &&& U64
  else if delta = -8 then (b &&& U64) >>> 8
  else if delta = 9 then ((b &&& compl64 FileHBB) <<< 9) &&& U64
  else if delta = -9 then (b &&& compl64 FileABB) >>> 9
  else if delta = 7 then ((b &&& compl64 FileABB) <<< 7) &&& U64
  else if delta = -7 then (b &&& compl64 FileHBB) >>> 7
  else 0

/-- Square arithmetic `s - delta` on C ints, clamped to Nat. -/
def sqSub (s : Nat) (delta : Int) : Nat := ((s : Int) - delta).toNat

/-- The squares of a bitboard in the order pop_lsb extracts them
(lowest set bit first, i.e. increasing square order). -/
def squaresOf (b : Nat) : List Nat := (List.range 64).filter (fun s => b.testBit s)

/-- lsb(b): the lowest set square of a (nonzero) bitboard. -/
def lsb (b : Nat) : Nat := (squaresOf b).headD 64

/-- more_than_one(b): b has at least two set bits. -/
def more_than_one (b : Nat) : Prop := b &&& (b - 1) ≠ 0

instance (b : Nat) : Decidable (more_than_one b) := by
  unfold more_than_one; infer_instance

/-! ### Global attack tables (modelled from the spec: attack-table
precomputation is an external collaborator of this core) -/

def onBoard (f r : Int) : Bool := 0 ≤ f && f < 8 && 0 ≤ r && r < 8

def sqOf (f r : Int) : Nat := (r * 8 + f).toNat

/-- Step-attack bitboard: the set of squares one step (df, dr) patterns away
from s, clipped at the board edge. -/
def stepAttacks (deltas : List (Int × Int)) (s : Nat) : Nat :=
  deltas.foldl (fun acc d =>
    let f : Int := (s % 8 : Nat) + d.1
    let r : Int := (s / 8 : Nat) + d.2
    if onBoard f r then acc ||| sq_bb (sqOf f r) else acc) 0

def knightAttacksBB (s : Nat) : Nat :=
  stepAttacks [(1,2),(2,1),(2,-1),(1,-2),(-1,-2),(-2,-1),(-2,1),(-1,2)] s

def kingAttacksBB (s : Nat) : Nat :=
  stepAttacks [(1,0),(1,1),(0,1),(-1,1),(-1,0),(-1,-1),(0,-1),(1,-1)] s

/-- attacks_from_pawn(s, c) = StepAttacksBB[make_piece(c, PAWN)][s]:
the two diagonal capture squares of a c-colored pawn on s. -/
def pawnAttacksBB (c s : Nat) : Nat :=
  if c = WHITE then shift_bb 9 (sq_bb s) ||| shift_bb 7 (sq_bb s)
  else shift_bb (-9) (sq_bb s) ||| shift_bb (-7) (sq_bb s)

/-- Walk one sliding ray from board coordinates (f, r) in direction (df, dr),
collecting squares until a blocker in occ (inclusive) or the board edge. -/
def walkRay (occ : Nat) (df dr : Int) : Nat → Int → Int → Nat
  | 0, _, _ => 0
  | fuel+1, f, r =>
    let f2 := f + df
    let r2 := r + dr
    if onBoard f2 r2 then
      let s := sqOf f2 r2
      sq_bb s ||| (if occ.testBit s then 0 else walkRay occ df dr fuel f2 r2)
    else 0

def slideAttacks (dirs : List (Int × Int)) (s occ : Nat) : Nat :=
  dirs.foldl (fun acc d => acc ||| walkRay occ d.1 d.2 7 ((s % 8 : Nat) : Int) ((s / 8 : Nat) : Int)) 0

def rookDirs : List (Int × Int) := [(1,0),(-1,0),(0,1),(0,-1)]
def bishopDirs : List (Int × Int) := [(1,1),(1,-1),(-1,1),(-1,-1)]
def allDirs : List (Int × Int) := rookDirs ++ bishopDirs

/-- attacks_bb_rook(s, occupied): rook attacks under the given occupancy. -/
def attacks_bb_rook (s occ : Nat) : Nat := slideAttacks rookDirs s occ

/-- attacks_bb_bishop(s, occupied). -/
def attacks_bb_bishop (s occ : Nat) : Nat := slideAttacks bishopDirs s occ

/-- PseudoAttacks[pt][s]: attacks on an empty board. -/
def pseudoAttacksBB (pt s : Nat) : Nat :=
  if pt = KNIGHT then knightAttacksBB s
  else if pt = BISHOP then attacks_bb_bishop s 0
  else if pt = ROOK then attacks_bb_rook s 0
  else if pt = QUEEN then attacks_bb_bishop s 0 ||| attacks_bb_rook s 0
  else if pt = KING then kingAttacksBB s
  else 0

/-- Ray from s in a fixed direction on an empty board. -/
def rayBB (s : Nat) (df dr : Int) : Nat := walkRay 0 df dr 7 ((s % 8 : Nat) : Int) ((s / 8 : Nat) : Int)

/-- LineBB[a][b]: the full line through a and b (both included), or 0 if not aligned. -/
def lineBB (a b : Nat) : Nat :=
  match allDirs.find? (fun d => (rayBB a d.1 d.2).testBit b) with
  | some d => sq_bb a ||| rayBB a d.1 d.2 ||| rayBB a (-d.1) (-d.2)
  | none => 0

/-- between_bb(a, b): squares strictly between a and b, or 0 if not aligned. -/
def betweenBB (a b : Nat) : Nat :=
  match allDirs.find? (fun d => (rayBB a d.1 d.2).testBit b) with
  | some d => rayBB a d.1 d.2 &&& rayBB b (-d.1) (-d.2)
  | none => 0

/-! ### Moves -/

inductive MoveKind where
  | normal : MoveKind
  | promotion : Nat → MoveKind
  | enpassant : MoveKind
  | castling : MoveKind
deriving DecidableEq, Repr

/-- A move: origin, destination and kind tag.  Two moves are equal iff
origin, destination and kind (with promotion piece) agree (spec, section 3). -/
structure Move where
  fromSq : Nat
  toSq : Nat
  kind : MoveKind
deriving DecidableEq, Repr

def make_move (f t : Nat) : Move := ⟨f, t, MoveKind.normal⟩
def make_promotion (f t pt : Nat) : Move := ⟨f, t, MoveKind.promotion pt⟩
def make_enpassant (f t : Nat) : Move := ⟨f, t, MoveKind.enpassant⟩
def make_castling (kf rf : Nat) : Move := ⟨kf, rf, MoveKind.castling⟩

/-- type_of_p(p) = p & 7 on the engine piece encoding. -/
def type_of_p (p : Nat) : Nat := p &&& 7

/-! ### CheckInfo and the abstract position collaborator -/

/-- CheckInfo snapshot (spec, section 3): opponent king square, per-type
check squares, discovered-check candidates of the mover. -/
structure CheckInfo where
  ksq : Nat
  dcCandidates : Nat
  checkSquares : Nat → Nat

def ciKsq (ci : Option CheckInfo) : Nat := (ci.map CheckInfo.ksq).getD 64
def ciDc (ci : Option CheckInfo) : Nat := (ci.map CheckInfo.dcCandidates).getD 0
def ciCheckSq (ci : Option CheckInfo) (pt : Nat) : Nat :=
  (ci.map (fun c => c.checkSquares pt)).getD 0

/-- The read-only position interface consumed by the generator
(spec, section 6).  Each field is one collaborator query. -/
structure Pos where
  stm : Nat
  pieces_c : Nat → Nat
  pieces_cp : Nat → Nat → Nat
  pieces : Nat
  pieces_pp : Nat → Nat → Nat
  pieces_cpp : Nat → Nat → Nat → Nat
  piece_on : Nat → Nat
  square_of : Nat → Nat → Nat
  piece_list : Nat → Nat → List Nat
  ep_square : Nat
  checkers : Nat
  castling_impeded : Nat → Bool
  can_castle_cr : Nat → Bool
  can_castle_c : Nat → Bool
  castling_rook_square : Nat → Nat
  attackers_to : Nat → Nat
  attacks_from : Nat → Nat → Nat
  is_chess960 : Bool
  gives_check : Move → CheckInfo → Bool
  is_legal : Move → Nat → Bool
  pinned_pieces : Nat → Nat
  checkinfo : CheckInfo

/-! ### generate_castling (movegen2.c lines 35-76) -/

/-- The king transit loop `for (s = kto; s != kfrom; s += K)`, with fuel 64
(the board size bounds the loop in C). -/
def castlePath (kfrom : Nat) (K : Int) : Nat → Nat → List Nat
  | 0, _ => []
  | fuel+1, s => if s = kfrom then [] else s :: castlePath kfrom K fuel (((s : Int) + K).toNat)

/-- The squares the castling loop tests for attacks: from the king
destination back to, but excluding, the king origin. -/
def castleTransit (pos : Pos) (us Cr : Nat) (Chess960 : Bool) : List Nat :=
  let KingSide := Cr = WHITE_OO ∨ Cr = BLACK_OO
  let kfrom := pos.square_of us KING
  let kto := relative_square us (if KingSide then SQ_G1 else SQ_C1)
  let K : Int := if Chess960 then (if kto > kfrom then -1 else 1) else (if KingSide then -1 else 1)
  castlePath kfrom K 64 kto

def generate_castling (pos : Pos) (us : Nat) (ci : Option CheckInfo)
    (Cr : Nat) (Checks Chess960 : Bool) : List Move :=
  if pos.castling_impeded Cr ∨ ¬ pos.can_castle_cr Cr then []
  else
    let kfrom := pos.square_of us KING
    let rfrom := pos.castling_rook_square Cr
    let enemies := pos.pieces_c (us ^^^ 1)
    if (castleTransit pos us Cr Chess960).any (fun s => pos.attackers_to s &&& enemies ≠ 0) then []
    else if Chess960 ∧ attacks_bb_rook (relative_square us (if Cr = WHITE_OO ∨ Cr = BLACK_OO then SQ_G1 else SQ_C1)) (pos.pieces ^^^ sq_bb rfrom) &&& pos.pieces_cpp (us ^^^ 1) ROOK QUEEN ≠ 0 then []
    else
      let m := make_castling kfrom rfrom
      if Checks = true ∧ pos.gives_check m (ci.getD ⟨64, 0, fun _ => 0⟩) = false then []
      else [m]

/-! ### make_promotions (movegen2.c lines 79-100) -/

def make_promotions (tsq : Nat) (ci : Option CheckInfo) (Ty : Nat) (Delta : Int) : List Move :=
  (if Ty = CAPTURES ∨ Ty = EVASIONS ∨ Ty = NON_EVASIONS then
    [make_promotion (sqSub tsq Delta) tsq QUEEN] else [])
  ++ (if Ty = QUIETS ∨ Ty = EVASIONS ∨ Ty = NON_EVASIONS then
    [make_promotion (sqSub tsq Delta) tsq ROOK,
     make_promotion (sqSub tsq Delta) tsq BISHOP,
     make_promotion (sqSub tsq Delta) tsq KNIGHT] else [])
  ++ (if Ty = QUIET_CHECKS ∧ knightAttacksBB tsq &&& sq_bb (ciKsq ci) ≠ 0 then
    [make_promotion (sqSub tsq Delta) tsq KNIGHT] else [])

/-! ### generate_pawn_moves (movegen2.c lines 103-221), split into its three
commented sections: pushes, promotions, captures / en passant. -/

/-- The parametrized values of generate_pawn_moves (lines 109-115, 119-123),
named from white's point of view as in the source. -/
def TRank7 (Us : Nat) : Nat := if Us = WHITE then Rank7BB else Rank2BB
def TRank3 (Us : Nat) : Nat := if Us = WHITE then Rank3BB else Rank6BB
def TRank8 (Us : Nat) : Nat := if Us = WHITE then Rank8BB else Rank1BB
def UpD (Us : Nat) : Int := if Us = WHITE then 8 else -8
def RightD (Us : Nat) : Int := if Us = WHITE then 9 else -9
def LeftD (Us : Nat) : Int := if Us = WHITE then 7 else -7
def ThemC (Us : Nat) : Nat := if Us = WHITE then BLACK else WHITE

def pawnsOn7BB (pos : Pos) (Us : Nat) : Nat := pos.pieces_cp Us PAWN &&& TRank7 Us
def pawnsNotOn7BB (pos : Pos) (Us : Nat) : Nat := pos.pieces_cp Us PAWN &&& compl64 (TRank7 Us)

/-- The `enemies` bitboard of line 122-123. -/
def pawnEnemies (pos : Pos) (target : Nat) (Us Ty : Nat) : Nat :=
  if Ty = EVASIONS then pos.pieces_c (ThemC Us) &&& target
  else if Ty = CAPTURES then target else pos.pieces_c (ThemC Us)

/-- The `emptySquares` value as seen by the pushes section (line 127). -/
def pushEmpty (pos : Pos) (target : Nat) (Ty : Nat) : Nat :=
  if Ty = QUIETS ∨ Ty = QUIET_CHECKS then target else compl64 pos.pieces

/-- The final pair (b1, b2) of single/double push destination bitboards
computed by lines 129-152. -/
def pushBB (pos : Pos) (target : Nat) (ci : Option CheckInfo) (Us Ty : Nat) : Nat × Nat :=
  let pawnsNotOn7 := pawnsNotOn7BB pos Us
  let emptySquares := pushEmpty pos target Ty
  let b1 := shift_bb (UpD Us) pawnsNotOn7 &&& emptySquares
  let b2 := shift_bb (UpD Us) (b1 &&& TRank3 Us) &&& emptySquares
  let b1 := if Ty = EVASIONS then b1 &&& target else b1
  let b2 := if Ty = EVASIONS then b2 &&& target else b2
  if Ty = QUIET_CHECKS then
    let b1 := b1 &&& pawnAttacksBB (ThemC Us) (ciKsq ci)
    let b2 := b2 &&& pawnAttacksBB (ThemC Us) (ciKsq ci)
    if pawnsNotOn7 &&& ciDc ci ≠ 0 then
      let dc1 := shift_bb (UpD Us) (pawnsNotOn7 &&& ciDc ci) &&& emptySquares &&& compl64 (file_bb (ciKsq ci))
      let dc2 := shift_bb (UpD Us) (dc1 &&& TRank3 Us) &&& emptySquares
      (b1 ||| dc1, b2 ||| dc2)
    else (b1, b2)
  else (b1, b2)

/-- Single and double pawn pushes, no promotions (lines 126-163). -/
def pawn_pushes (pos : Pos) (target : Nat) (ci : Option CheckInfo) (Us Ty : Nat) : List Move :=
  if Ty = CAPTURES then []
  else
    (squaresOf (pushBB pos target ci Us Ty).1).map (fun tsq => make_move (sqSub tsq (UpD Us)) tsq)
    ++ (squaresOf (pushBB pos target ci Us Ty).2).map
         (fun tsq => make_move (sqSub (sqSub tsq (UpD Us)) (UpD Us)) tsq)

/-- The `emptySquares` value as seen by the promotion section (lines 167-171). -/
def promoEmpty (pos : Pos) (target : Nat) (Ty : Nat) : Nat :=
  if Ty = CAPTURES then compl64 pos.pieces
  else if Ty = QUIETS ∨ Ty = QUIET_CHECKS then target
  else if Ty = EVASIONS then compl64 pos.pieces &&& target
  else compl64 pos.pieces

/-- Promotions and underpromotions (lines 165-185). -/
def pawn_promotions (pos : Pos) (target : Nat) (ci : Option CheckInfo) (Us Ty : Nat) : List Move :=
  let pawnsOn7 := pawnsOn7BB pos Us
  if pawnsOn7 ≠ 0 ∧ (Ty ≠ EVASIONS ∨ target &&& TRank8 Us ≠ 0) then
    (squaresOf (shift_bb (RightD Us) pawnsOn7 &&& pawnEnemies pos target Us Ty)).flatMap
      (fun tsq => make_promotions tsq ci Ty (RightD Us))
    ++ (squaresOf (shift_bb (LeftD Us) pawnsOn7 &&& pawnEnemies pos target Us Ty)).flatMap
      (fun tsq => make_promotions tsq ci Ty (LeftD Us))
    ++ (squaresOf (shift_bb (UpD Us) pawnsOn7 &&& promoEmpty pos target Ty)).flatMap
      (fun tsq => make_promotions tsq ci Ty (UpD Us))
  else []

/-- Standard and en-passant captures (lines 187-218). -/
def pawn_caps_ep (pos : Pos) (target : Nat) (ci : Option CheckInfo) (Us Ty : Nat) : List Move :=
  if Ty = CAPTURES ∨ Ty = EVASIONS ∨ Ty = NON_EVASIONS then
    let pawnsNotOn7 := pawnsNotOn7BB pos Us
    let enemies := pawnEnemies pos target Us Ty
    (squaresOf (shift_bb (RightD Us) pawnsNotOn7 &&& enemies)).map
      (fun tsq => make_move (sqSub tsq (RightD Us)) tsq)
    ++ (squaresOf (shift_bb (LeftD Us) pawnsNotOn7 &&& enemies)).map
      (fun tsq => make_move (sqSub tsq (LeftD Us)) tsq)
    ++ (if pos.ep_square ≠ 0 then
          if Ty = EVASIONS ∧ target &&& sq_bb (sqSub pos.ep_square (UpD Us)) = 0 then []
          else (squaresOf (pawnsNotOn7 &&& pawnAttacksBB (ThemC Us) pos.ep_square)).map
                 (fun f => make_enpassant f pos.ep_square)
        else [])
  else []

def generate_pawn_moves (pos : Pos) (target : Nat) (ci : Option CheckInfo) (Us Ty : Nat) : List Move :=
  pawn_pushes pos target ci Us Ty
  ++ pawn_promotions pos target ci Us Ty
  ++ pawn_caps_ep pos target ci Us Ty

/-! ### generate_moves for knight/bishop/rook/queen (movegen2.c lines 224-253) -/

def generate_moves (pos : Pos) (us : Nat) (target : Nat) (ci : Option CheckInfo)
    (Pt : Nat) (Checks : Bool) : List Move :=
  (pos.piece_list us Pt).flatMap (fun f =>
    if Checks = true ∧ (Pt = BISHOP ∨ Pt = ROOK ∨ Pt = QUEEN)
        ∧ pseudoAttacksBB Pt f &&& target &&& ciCheckSq ci Pt = 0 then []
    else if Checks = true ∧ ciDc ci &&& sq_bb f ≠ 0 then []
    else
      let b := pos.attacks_from Pt f &&& target
      let b := if Checks then b &&& ciCheckSq ci Pt else b
      (squaresOf b).map (fun tsq => make_move f tsq))

/-! ### generate_all (movegen2.c lines 256-286) -/

def generate_all (pos : Pos) (target : Nat) (ci : Option CheckInfo) (Us Ty : Nat) : List Move :=
  let Checks : Bool := Ty = QUIET_CHECKS
  generate_pawn_moves pos target ci Us Ty
  ++ generate_moves pos Us target ci KNIGHT Checks
  ++ generate_moves pos Us target ci BISHOP Checks
  ++ generate_moves pos Us target ci ROOK Checks
  ++ generate_moves pos Us target ci QUEEN Checks
  ++ (if Ty ≠ QUIET_CHECKS ∧ Ty ≠ EVASIONS then
        let ksq := pos.square_of Us KING
        (squaresOf (kingAttacksBB ksq &&& target)).map (fun tsq => make_move ksq tsq)
      else [])
  ++ (if Ty ≠ CAPTURES ∧ Ty ≠ EVASIONS ∧ pos.can_castle_c Us = true then
        generate_castling pos Us ci (make_castling_right Us KING_SIDE) Checks pos.is_chess960
        ++ generate_castling pos Us ci (make_castling_right Us QUEEN_SIDE) Checks pos.is_chess960
      else [])

/-! ### The category dispatcher and entry points (movegen2.c lines 298-360) -/

/-- The per-category target bitboard of lines 305-307. -/
def genTarget (pos : Pos) (Ty : Nat) : Nat :=
  if Ty = CAPTURES then pos.pieces_c (pos.stm ^^^ 1)
  else if Ty = QUIETS then compl64 pos.pieces
  else if Ty = NON_EVASIONS then compl64 (pos.pieces_c pos.stm)
  else 0

def generate (pos : Pos) (Ty : Nat) : List Move :=
  if pos.stm = WHITE then generate_all pos (genTarget pos Ty) none WHITE Ty
  else generate_all pos (genTarget pos Ty) none BLACK Ty

def generate_captures (pos : Pos) : List Move := generate pos CAPTURES

def generate_quiets (pos : Pos) : List Move := generate pos QUIETS

def generate_non_evasions (pos : Pos) : List Move := generate pos NON_EVASIONS

/-- The discovered-check-candidate sweep of generate_quiet_checks
(movegen2.c lines 342-356). -/
def dcSweep (pos : Pos) (ci : CheckInfo) : List Move :=
  (squaresOf ci.dcCandidates).flatMap (fun f =>
    let pt := type_of_p (pos.piece_on f)
    if pt = PAWN then []
    else
      let b := pos.attacks_from pt f &&& compl64 pos.pieces
      let b := if pt = KING then b &&& compl64 (pseudoAttacksBB QUEEN ci.ksq) else b
      (squaresOf b).map (fun tsq => make_move f tsq))

def generate_quiet_checks (pos : Pos) : List Move :=
  let us := pos.stm
  let ci := pos.checkinfo
  dcSweep pos ci
  ++ (if us = WHITE then generate_all pos (compl64 pos.pieces) (some ci) WHITE QUIET_CHECKS
      else generate_all pos (compl64 pos.pieces) (some ci) BLACK QUIET_CHECKS)

/-- generate_evasions (movegen2.c lines 365-396). -/
def generate_evasions (pos : Pos) : List Move :=
  let us := pos.stm
  let ksq := pos.square_of us KING
  let sliders := pos.checkers &&& compl64 (pos.pieces_pp KNIGHT PAWN)
  let sliderAttacks := (squaresOf sliders).foldl
    (fun acc checksq => acc ||| (lineBB checksq ksq ^^^ sq_bb checksq)) 0
  let kingMoves := (squaresOf (kingAttacksBB ksq &&& compl64 (pos.pieces_c us) &&& compl64 sliderAttacks)).map
    (fun tsq => make_move ksq tsq)
  if more_than_one pos.checkers then kingMoves
  else
    let checksq := lsb pos.checkers
    let target := betweenBB checksq ksq ||| sq_bb checksq
    kingMoves ++ (if us = WHITE then generate_all pos target none WHITE EVASIONS
                  else generate_all pos target none BLACK EVASIONS)

/-! ### generate_legal (movegen2.c lines 400-417) -/

/-- The guard of line 409-410: the legality test runs only when the mover has
any pinned piece at all, or the origin is the king square, or the move is an
en-passant capture. -/
def legal_test_needed (pinned ksq : Nat) (m : Move) : Bool :=
  pinned ≠ 0 ∨ m.fromSq = ksq ∨ m.kind = MoveKind.enpassant

/-- The in-place compaction of lines 408-414: a failing move is overwritten
by the last element of the buffer, which shrinks by one; otherwise advance. -/
def swapFilter (good : Move → Bool) : List Move → List Move
  | [] => []
  | m :: rest =>
    if good m then m :: swapFilter good rest
    else
      match h : rest.getLast? with
      | none => []
      | some lastm => swapFilter good (lastm :: rest.dropLast)
termination_by l => l.length
decreasing_by
  · simp
  · have hne : rest ≠ [] := by
      intro hcon
      rw [hcon] at h
      simp at h
    have hpos : 0 < rest.length := List.length_pos.mpr hne
    simp [List.length_dropLast]
    omega

def generate_legal (pos : Pos) : List Move :=
  let pinned := pos.pinned_pieces pos.stm
  let ksq := pos.square_of pos.stm KING
  let pseudo := if pos.checkers ≠ 0 then generate_evasions pos else generate_non_evasions pos
  swapFilter (fun m => ¬ (legal_test_needed pinned ksq m = true ∧ pos.is_legal m pinned = false)) pseudo

/-! ### A concrete position collaborator (Modelled from the spec: position.c
is not part of this source tree; this instantiation follows section 6's
interface description and is used for witness positions) -/

/-- A concrete board: a list of (square, color, piece type) entries, the side
to move, the en-passant square (0 for none) and the castling-rights mask. -/
structure BoardSpec where
  sqs : List (Nat × Nat × Nat)
  stm : Nat
  ep : Nat
  crights : Nat

def bsPiecesCP (b : BoardSpec) (c t : Nat) : Nat :=
  b.sqs.foldl (fun acc x => if x.2.1 = c ∧ x.2.2 = t then acc ||| sq_bb x.1 else acc) 0

def bsPiecesC (b : BoardSpec) (c : Nat) : Nat :=
  b.sqs.foldl (fun acc x => if x.2.1 = c then acc ||| sq_bb x.1 else acc) 0

def bsPieces (b : BoardSpec) : Nat :=
  b.sqs.foldl (fun acc x => acc ||| sq_bb x.1) 0

def bsPieceOn (b : BoardSpec) (s : Nat) : Nat :=
  match b.sqs.find? (fun x => x.1 = s) with
  | some x => x.2.1 * 8 + x.2.2
  | none => 0

def bsSquareOf (b : BoardSpec) (c t : Nat) : Nat :=
  match b.sqs.find? (fun x => x.2.1 = c ∧ x.2.2 = t) with
  | some x => x.1
  | none => 64

def bsPieceList (b : BoardSpec) (c t : Nat) : List Nat :=
  (b.sqs.filter (fun x => x.2.1 = c ∧ x.2.2 = t)).map (fun x => x.1)

/-- attackers_to(s) under a given occupancy: all pieces of both colors
attacking square s (spec, section 6). -/
def bsAttackersToOcc (b : BoardSpec) (s occ : Nat) : Nat :=
  (pawnAttacksBB BLACK s &&& bsPiecesCP b WHITE PAWN)
  ||| (pawnAttacksBB WHITE s &&& bsPiecesCP b BLACK PAWN)
  ||| (knightAttacksBB s &&& (bsPiecesCP b WHITE KNIGHT ||| bsPiecesCP b BLACK KNIGHT))
  ||| (kingAttacksBB s &&& (bsPiecesCP b WHITE KING ||| bsPiecesCP b BLACK KING))
  ||| (attacks_bb_rook s occ
       &&& (bsPiecesCP b WHITE ROOK ||| bsPiecesCP b BLACK ROOK
            ||| bsPiecesCP b WHITE QUEEN ||| bsPiecesCP b BLACK QUEEN))
  ||| (attacks_bb_bishop s occ
       &&& (bsPiecesCP b WHITE BISHOP ||| bsPiecesCP b BLACK BISHOP
            ||| bsPiecesCP b WHITE QUEEN ||| bsPiecesCP b BLACK QUEEN))

/-- attacks_from(pt, s): attack bitboard under the current occupancy. -/
def bsAttacksFrom (b : BoardSpec) (pt s : Nat) : Nat :=
  if pt = KNIGHT then knightAttacksBB s
  else if pt = BISHOP then attacks_bb_bishop s (bsPieces b)
  else if pt = ROOK then attacks_bb_rook s (bsPieces b)
  else if pt = QUEEN then attacks_bb_bishop s (bsPieces b) ||| attacks_bb_rook s (bsPieces b)
  else if pt = KING then kingAttacksBB s
  else if pt = PAWN then pawnAttacksBB b.stm s
  else 0

/-- Modelled from the spec (section 4.2): pieces that are the sole blocker on
a line between the king of color kc and an enemy slider, restricted to color
keep (pin detection and discovered-check candidates). -/
def bsSliderBlockers (b : BoardSpec) (kc keep : Nat) : Nat :=
  let ksq := bsSquareOf b kc KING
  let occ := bsPieces b
  let snipers :=
    (attacks_bb_rook ksq 0 &&& (bsPiecesCP b (kc ^^^ 1) ROOK ||| bsPiecesCP b (kc ^^^ 1) QUEEN))
    ||| (attacks_bb_bishop ksq 0 &&& (bsPiecesCP b (kc ^^^ 1) BISHOP ||| bsPiecesCP b (kc ^^^ 1) QUEEN))
  (squaresOf snipers).foldl (fun acc sn =>
    let bb := betweenBB ksq sn &&& occ
    if bb ≠ 0 ∧ bb &&& (bb - 1) = 0 then acc ||| (bb &&& bsPiecesC b keep) else acc) 0

/-- Modelled from the spec (section 4.2): the per-type check squares for the
side to move against the opponent king on ksq. -/
def bsCheckSquares (b : BoardSpec) (ksq pt : Nat) : Nat :=
  if pt = PAWN then pawnAttacksBB (b.stm ^^^ 1) ksq
  else if pt = KNIGHT then knightAttacksBB ksq
  else if pt = BISHOP then attacks_bb_bishop ksq (bsPieces b)
  else if pt = ROOK then attacks_bb_rook ksq (bsPieces b)
  else if pt = QUEEN then attacks_bb_bishop ksq (bsPieces b) ||| attacks_bb_rook ksq (bsPieces b)
  else 0

/-- Modelled from the spec (section 4.8): move-level legality: a pinned piece
may only move along its pin line, a king move must not land on an attacked
square, and an en-passant capture must not uncover a hidden slider check. -/
def bsIsLegal (b : BoardSpec) (m : Move) (pinned : Nat) : Bool :=
  let us := b.stm
  let them := us ^^^ 1
  let ksq := bsSquareOf b us KING
  let occ := bsPieces b
  if m.kind = MoveKind.enpassant then
    let capsq := sqSub m.toSq (if us = WHITE then (8 : Int) else -8)
    let occ2 := (occ ^^^ sq_bb m.fromSq ^^^ sq_bb capsq) ||| sq_bb m.toSq
    decide (attacks_bb_rook ksq occ2 &&& (bsPiecesCP b them ROOK ||| bsPiecesCP b them QUEEN) = 0
      ∧ attacks_bb_bishop ksq occ2 &&& (bsPiecesCP b them BISHOP ||| bsPiecesCP b them QUEEN) = 0)
  else if m.fromSq = ksq then
    decide (m.kind = MoveKind.castling
      ∨ bsAttackersToOcc b m.toSq (occ ^^^ sq_bb m.fromSq) &&& bsPiecesC b them = 0)
  else
    decide (pinned &&& sq_bb m.fromSq = 0 ∨ (lineBB m.fromSq m.toSq).testBit ksq = true)

/-- Modelled from the spec (section 4.5): check detection for a candidate
move: direct check on a check square, or a discovered check from moving a
discovered-check candidate off the line to the opponent king. -/
def bsGivesCheck (b : BoardSpec) (m : Move) (ci : CheckInfo) : Bool :=
  decide ((ci.checkSquares (type_of_p (bsPieceOn b m.fromSq))).testBit m.toSq = true
    ∨ (ci.dcCandidates.testBit m.fromSq = true ∧ (lineBB m.fromSq m.toSq).testBit ci.ksq = false))

/-- Standard-chess rook home squares per castling right. -/
def bsCastlingRookSquare (cr : Nat) : Nat :=
  if cr = WHITE_OO then 7 else if cr = WHITE_OOO then 0
  else if cr = BLACK_OO then 63 else 56

/-- Modelled from the spec (section 4.5): the path between king and rook is
occupied by a piece other than the two themselves. -/
def bsCastlingImpeded (b : BoardSpec) (cr : Nat) : Bool :=
  decide (betweenBB (bsSquareOf b (if cr ≤ 2 then WHITE else BLACK) KING)
            (bsCastlingRookSquare cr) &&& bsPieces b ≠ 0)

/-- Modelled from the spec: a concrete instantiation of the whole position
collaborator interface of section 6, built from a piece list. -/
def mkPos (b : BoardSpec) : Pos :=
  { stm := b.stm
    pieces_c := bsPiecesC b
    pieces_cp := bsPiecesCP b
    pieces := bsPieces b
    pieces_pp := fun t1 t2 =>
      bsPiecesCP b WHITE t1 ||| bsPiecesCP b BLACK t1 ||| bsPiecesCP b WHITE t2 ||| bsPiecesCP b BLACK t2
    pieces_cpp := fun c t1 t2 => bsPiecesCP b c t1 ||| bsPiecesCP b c t2
    piece_on := bsPieceOn b
    square_of := bsSquareOf b
    piece_list := bsPieceList b
    ep_square := b.ep
    checkers := bsAttackersToOcc b (bsSquareOf b b.stm KING) (bsPieces b) &&& bsPiecesC b (b.stm ^^^ 1)
    castling_impeded := bsCastlingImpeded b
    can_castle_cr := fun cr => b.crights &&& cr != 0
    can_castle_c := fun c => b.crights &&& (if c = WHITE then 3 else 12) != 0
    castling_rook_square := bsCastlingRookSquare
    attackers_to := fun s => bsAttackersToOcc b s (bsPieces b)
    attacks_from := bsAttacksFrom b
    is_chess960 := false
    gives_check := bsGivesCheck b
    is_legal := bsIsLegal b
    pinned_pieces := fun c => bsSliderBlockers b c c
    checkinfo :=
      { ksq := bsSquareOf b (b.stm ^^^ 1) KING
        dcCandidates := bsSliderBlockers b (b.stm ^^^ 1) b.stm
        checkSquares := bsCheckSquares b (bsSquareOf b (b.stm ^^^ 1) KING) } }

/-! ### Witness positions -/

/-- White pawn a7, white king a1, black king h8, white to move. -/
def posA : Pos := mkPos { sqs := [(48, WHITE, PAWN), (0, WHITE, KING), (63, BLACK, KING)], stm := WHITE, ep := 0, crights := 0 }

/-- White pawn b7, black rook a8, white king e1, black king h8, white to move. -/
def posB : Pos := mkPos { sqs := [(49, WHITE, PAWN), (56, BLACK, ROOK), (4, WHITE, KING), (63, BLACK, KING)], stm := WHITE, ep := 0, crights := 0 }

/-- En-passant position: white pawn b5, black pawn a5 (just double-pushed),
kings e1/e8, white to move, en-passant square a6. -/
def posC : Pos := mkPos { sqs := [(33, WHITE, PAWN), (32, BLACK, PAWN), (4, WHITE, KING), (60, BLACK, KING)], stm := WHITE, ep := 40, crights := 0 }

/-- Castling position: white king e1, white rook h1, black rook g8, black
king c8, white to move, white may castle kingside; g1 is attacked. -/
def posD : Pos := mkPos { sqs := [(4, WHITE, KING), (7, WHITE, ROOK), (62, BLACK, ROOK), (58, BLACK, KING)], stm := WHITE, ep := 0, crights := 1 }

/-- White king e1 in check from black rook e8; black king h8; white to move. -/
def posE : Pos := mkPos { sqs := [(4, WHITE, KING), (60, BLACK, ROOK), (63, BLACK, KING)], stm := WHITE, ep := 0, crights := 0 }

/-- Discovered-check position: white rook a4, white king d4 (sole blocker on
the a4-h4 line), black king h4, white to move: the white king is a
discovered-check candidate. -/
def posF : Pos := mkPos { sqs := [(24, WHITE, ROOK), (27, WHITE, KING), (31, BLACK, KING)], stm := WHITE, ep := 0, crights := 0 }

/-- Pin position: white king e1, white rook e4 pinned by black queen e8,
white knight b1, black king h8, white to move. -/
def posG : Pos := mkPos { sqs := [(4, WHITE, KING), (28, WHITE, ROOK), (60, BLACK, QUEEN), (1, WHITE, KNIGHT), (63, BLACK, KING)], stm := WHITE, ep := 0, crights := 0 }

/-! ### Position well-formedness (Modelled from the spec, sections 3 and 6:
structural invariants the position collaborator guarantees) -/

def allPT : List Nat := [PAWN, KNIGHT, BISHOP, ROOK, QUEEN, KING]

/-- Modelled from the spec (sections 3 and 6): structural invariants of a
valid position guaranteed by the position collaborator: a valid side to
move; piece bitboards within the 64 board bits; color occupancy contained in
the total occupancy; at most one piece per square (the per-color, per-type
occupancy bitboards are pairwise disjoint); piece lists without duplicates
and contained in the matching bitboards; the piece code on a square agreeing
with the bitboards; king squares on the board and on the king bitboards; and
distinct rook squares for the two castling rights of one color. -/
def wfPos (pos : Pos) : Prop :=
  pos.stm < 2
  ∧ (∀ c, c < 2 → ∀ t, t ∈ allPT → pos.pieces_cp c t < 2 ^ 64)
  ∧ (∀ c, c < 2 → pos.pieces_c c &&& compl64 pos.pieces = 0)
  ∧ (∀ c1, c1 < 2 → ∀ t1, t1 ∈ allPT → ∀ c2, c2 < 2 → ∀ t2, t2 ∈ allPT →
       (c1 ≠ c2 ∨ t1 ≠ t2) → pos.pieces_cp c1 t1 &&& pos.pieces_cp c2 t2 = 0)
  ∧ (∀ c, c < 2 → ∀ t, t ∈ allPT → (pos.piece_list c t).Nodup
       ∧ ∀ s ∈ pos.piece_list c t, (pos.pieces_cp c t).testBit s = true)
  ∧ (∀ c, c < 2 → ∀ t, t ∈ allPT → ∀ s, s < 64 →
       (pos.pieces_cp c t).testBit s = true → type_of_p (pos.piece_on s) = t)
  ∧ (∀ c, c < 2 → (pos.pieces_cp c KING).testBit (pos.square_of c KING) = true)
  ∧ (∀ c, c < 2 → pos.can_castle_cr (make_castling_right c KING_SIDE) = true →
       pos.can_castle_cr (make_castling_right c QUEEN_SIDE) = true →
       pos.castling_rook_square (make_castling_right c KING_SIDE)
         ≠ pos.castling_rook_square (make_castling_right c QUEEN_SIDE))

instance (pos : Pos) : Decidable (wfPos pos) := by
  unfold wfPos
  infer_instance

/-- Modelled from the spec: the position collaborator's en-passant invariant
(spec sections 4.3 and 6; the code maintaining it lives in position.c,
outside this source tree): when an en-passant square is set, it lies on the
mover's relative rank 6 and some mover pawn attacks it, i.e. could capture
onto it. -/
def epInvariant (pos : Pos) (Us : Nat) : Prop :=
  pos.ep_square ≠ 0 →
    rank_of pos.ep_square = relative_rank Us RANK_6
    ∧ pos.pieces_cp Us PAWN &&& pawnAttacksBB (ThemC Us) pos.ep_square ≠ 0

/-! ### Basic bitboard lemmas -/

theorem testBit_U64 (i : Nat) : U64.testBit i = decide (i < 64) := by
  simpa [U64] using Nat.testBit_two_pow_sub_one 64 i

theorem testBit_compl64 (b i : Nat) :
    (compl64 b).testBit i = (decide (i < 64) && !b.testBit i) := by
  simp only [compl64, Nat.testBit_xor, Nat.testBit_land, testBit_U64]
  by_cases h : i < 64 <;> cases hb : b.testBit i <;> simp [h, hb]

theorem testBit_sq_bb (s i : Nat) : (sq_bb s).testBit i = decide (s = i) := by
  have e : sq_bb s = 2 ^ s := by simp [sq_bb, Nat.shiftLeft_eq]
  rw [e, Nat.testBit_two_pow]

theorem mem_squaresOf {b s : Nat} : s ∈ squaresOf b ↔ s < 64 ∧ b.testBit s = true := by
  simp [squaresOf, List.mem_filter, List.mem_range]

theorem nodup_squaresOf (b : Nat) : (squaresOf b).Nodup :=
  (List.nodup_range 64).filter _

theorem land_ne_zero_iff {a b : Nat} :
    a &&& b ≠ 0 ↔ ∃ i, a.testBit i = true ∧ b.testBit i = true := by
  constructor
  · intro h
    rcases Nat.ne_zero_implies_bit_true h with ⟨i, hi⟩
    rw [Nat.testBit_land] at hi
    simp at hi
    exact ⟨i, hi⟩
  · rintro ⟨i, h1, h2⟩ hz
    have hb : (a &&& b).testBit i = false := by rw [hz]; simp
    rw [Nat.testBit_land, h1, h2] at hb
    simp at hb

theorem land_sq_bb_ne_zero {b s : Nat} : b &&& sq_bb s ≠ 0 ↔ b.testBit s = true := by
  rw [land_ne_zero_iff]
  constructor
  · rintro ⟨i, h1, h2⟩
    rw [testBit_sq_bb] at h2
    have : s = i := of_decide_eq_true h2
    rwa [this]
  · intro h
    exact ⟨s, h, by rw [testBit_sq_bb]; simp⟩

/-! ### Shift lemmas: recovering the origin square of a shifted bit -/

theorem shift_p8_bit {x i : Nat} (h : (shift_bb 8 x).testBit i = true) :
    8 ≤ i ∧ i < 64 ∧ x.testBit (i - 8) = true := by
  unfold shift_bb at h
  norm_num at h
  rw [testBit_U64] at h
  simp at h
  exact ⟨h.1.1, h.2, h.1.2⟩

theorem shift_p9_bit {x i : Nat} (h : (shift_bb 9 x).testBit i = true) :
    9 ≤ i ∧ i < 64 ∧ x.testBit (i - 9) = true := by
  unfold shift_bb at h
  norm_num at h
  rw [testBit_U64] at h
  simp at h
  exact ⟨h.1.1, h.2, h.1.2.1⟩

theorem shift_p7_bit {x i : Nat} (h : (shift_bb 7 x).testBit i = true) :
    7 ≤ i ∧ i < 64 ∧ x.testBit (i - 7) = true := by
  unfold shift_bb at h
  norm_num at h
  rw [testBit_U64] at h
  simp at h
  exact ⟨h.1.1, h.2, h.1.2.1⟩

theorem shift_m8_bit {x i : Nat} (h : (shift_bb (-8) x).testBit i = true) :
    i + 8 < 64 ∧ x.testBit (i + 8) = true := by
  unfold shift_bb at h
  norm_num at h
  rw [testBit_U64] at h
  simp at h
  obtain ⟨hx, hlt⟩ := h
  exact ⟨by omega, by rw [Nat.add_comm]; exact hx⟩

theorem shift_m9_bit {x i : Nat} (h : (shift_bb (-9) x).testBit i = true) :
    i + 9 < 64 ∧ x.testBit (i + 9) = true := by
  unfold shift_bb at h
  norm_num at h
  rw [testBit_compl64] at h
  simp at h
  obtain ⟨hx, hlt, -⟩ := h
  exact ⟨by omega, by rw [Nat.add_comm]; exact hx⟩

theorem shift_m7_bit {x i : Nat} (h : (shift_bb (-7) x).testBit i = true) :
    i + 7 < 64 ∧ x.testBit (i + 7) = true := by
  unfold shift_bb at h
  norm_num at h
  rw [testBit_compl64] at h
  simp at h
  obtain ⟨hx, hlt, -⟩ := h
  exact ⟨by omega, by rw [Nat.add_comm]; exact hx⟩

/-! ### sqSub arithmetic -/

theorem sqSub_p8 (s : Nat) : sqSub s 8 = s - 8 := by unfold sqSub; omega
theorem sqSub_p9 (s : Nat) : sqSub s 9 = s - 9 := by unfold sqSub; omega
theorem sqSub_p7 (s : Nat) : sqSub s 7 = s - 7 := by unfold sqSub; omega
theorem sqSub_m8 (s : Nat) : sqSub s (-8) = s + 8 := by unfold sqSub; omega
theorem sqSub_m9 (s : Nat) : sqSub s (-9) = s + 9 := by unfold sqSub; omega
theorem sqSub_m7 (s : Nat) : sqSub s (-7) = s + 7 := by unfold sqSub; omega

/-! ### Rank mask bounds -/

theorem testBit_Rank3 {i : Nat} (h : Rank3BB.testBit i = true) : 16 ≤ i ∧ i < 24 := by
  have e : Rank3BB = (2 ^ 8 - 1) <<< 16 := by decide
  rw [e, Nat.testBit_shiftLeft, Nat.testBit_two_pow_sub_one] at h
  simp at h
  omega

theorem testBit_Rank6 {i : Nat} (h : Rank6BB.testBit i = true) : 40 ≤ i ∧ i < 48 := by
  have e : Rank6BB = (2 ^ 8 - 1) <<< 40 := by decide
  rw [e, Nat.testBit_shiftLeft, Nat.testBit_two_pow_sub_one] at h
  simp at h
  omega

theorem testBit_Rank7 {i : Nat} (h : Rank7BB.testBit i = true) : 48 ≤ i ∧ i < 56 := by
  have e : Rank7BB = (2 ^ 8 - 1) <<< 48 := by decide
  rw [e, Nat.testBit_shiftLeft, Nat.testBit_two_pow_sub_one] at h
  simp at h
  omega

theorem testBit_Rank2 {i : Nat} (h : Rank2BB.testBit i = true) : 8 ≤ i ∧ i < 16 := by
  have e : Rank2BB = (2 ^ 8 - 1) <<< 8 := by decide
  rw [e, Nat.testBit_shiftLeft, Nat.testBit_two_pow_sub_one] at h
  simp at h
  omega

/-! ### List helpers -/

theorem mem_ite_nil {α : Type} {a : α} {c : Prop} [Decidable c] {l : List α} :
    a ∈ (if c then l else []) ↔ c ∧ a ∈ l := by
  split <;> simp_all

theorem mem_map_squaresOf {b : Nat} {g : Nat → Move} {m : Move} :
    m ∈ (squaresOf b).map g ↔ ∃ s, (s < 64 ∧ b.testBit s = true) ∧ g s = m := by
  simp [List.mem_map, mem_squaresOf]

theorem mem_flatMap_squaresOf {b : Nat} {g : Nat → List Move} {m : Move} :
    m ∈ (squaresOf b).flatMap g ↔ ∃ s, (s < 64 ∧ b.testBit s = true) ∧ m ∈ g s := by
  simp [List.mem_flatMap, mem_squaresOf]

theorem nodup_map_squaresOf {b : Nat} {g : Nat → Move} (hg : ∀ s, (g s).toSq = s) :
    ((squaresOf b).map g).Nodup :=
  List.Nodup.map_on (fun x _ y _ hxy => by rw [← hg x, ← hg y, hxy]) (nodup_squaresOf b)

theorem nodup_flatMap_squaresOf {b : Nat} {g : Nat → List Move} (key : Move → Nat)
    (h1 : ∀ s, (g s).Nodup) (h2 : ∀ s m, m ∈ g s → key m = s) :
    ((squaresOf b).flatMap g).Nodup := by
  rw [List.nodup_flatMap]
  refine ⟨fun s _ => h1 s, ?_⟩
  refine List.Pairwise.imp ?_ (nodup_squaresOf b)
  intro x y hxy m hm1 hm2
  exact hxy (((h2 x m hm1).symm).trans (h2 y m hm2))

/-! ### make_promotions: membership and distinctness -/

theorem mem_make_promotions {tsq : Nat} {ci : Option CheckInfo} {Ty : Nat} {D : Int} {m : Move}
    (h : m ∈ make_promotions tsq ci Ty D) :
    m.toSq = tsq ∧ m.fromSq = sqSub tsq D ∧ ∃ pt, m.kind = MoveKind.promotion pt := by
  simp only [make_promotions, List.mem_append, mem_ite_nil, List.mem_cons,
    List.mem_singleton, List.not_mem_nil, or_false] at h
  rcases h with (⟨-, h⟩ | ⟨-, h | h | h⟩) | ⟨-, h⟩ <;> subst h <;> exact ⟨rfl, rfl, _, rfl⟩

theorem nodup_make_promotions (tsq : Nat) (ci : Option CheckInfo) (Ty : Nat) (D : Int) :
    (make_promotions tsq ci Ty D).Nodup := by
  unfold make_promotions
  by_cases hQC : Ty = QUIET_CHECKS
  · subst hQC
    norm_num [CAPTURES, EVASIONS, NON_EVASIONS, QUIETS, QUIET_CHECKS]
    split <;> simp
  · have h3 : ¬ (Ty = QUIET_CHECKS ∧ knightAttacksBB tsq &&& sq_bb (ciKsq ci) ≠ 0) := by
      intro hc; exact hQC hc.1
    rw [if_neg h3]
    split <;> split <;>
      simp [make_promotion, Move.mk.injEq, QUEEN, ROOK, BISHOP, KNIGHT]

/-! ### pushBB: destination and origin facts -/

theorem testBit_land_left {a b i : Nat} (h : (a &&& b).testBit i = true) : a.testBit i = true := by
  rw [Nat.testBit_land] at h
  exact (Bool.and_eq_true _ _ ▸ h).1

theorem testBit_land_right {a b i : Nat} (h : (a &&& b).testBit i = true) : b.testBit i = true := by
  rw [Nat.testBit_land] at h
  exact (Bool.and_eq_true _ _ ▸ h).2

theorem testBit_lor_cases {a b i : Nat} (h : (a ||| b).testBit i = true) :
    a.testBit i = true ∨ b.testBit i = true := by
  rw [Nat.testBit_lor] at h
  exact Bool.or_eq_true _ _ ▸ h

theorem pushBB_empty {pos : Pos} {target : Nat} {ci : Option CheckInfo} {Us Ty i : Nat}
    (h : ((pushBB pos target ci Us Ty).1).testBit i = true
       ∨ ((pushBB pos target ci Us Ty).2).testBit i = true) :
    (pushEmpty pos target Ty).testBit i = true := by
  by_cases hE : Ty = EVASIONS
  · have hQ : Ty ≠ QUIET_CHECKS := by rw [hE]; decide
    simp only [pushBB, if_pos hE, if_neg hQ] at h
    rcases h with h | h <;> exact testBit_land_right (testBit_land_left h)
  · by_cases hQC : Ty = QUIET_CHECKS
    · simp only [pushBB, if_pos hQC, if_neg hE] at h
      rcases h with h | h <;>
        (split at h <;>
          first
            | exact testBit_land_right (testBit_land_left h)
            | (rcases testBit_lor_cases h with h | h <;>
                first
                  | exact testBit_land_right h
                  | exact testBit_land_right (testBit_land_left h)))
    · simp only [pushBB, if_neg hE, if_neg hQC] at h
      rcases h with h | h <;> exact testBit_land_right h

theorem push2w_core {y ES i : Nat} (h : (shift_bb 8 (y &&& Rank3BB) &&& ES).testBit i = true) :
    24 ≤ i ∧ i < 64 ∧ y.testBit (i - 8) = true := by
  obtain ⟨h1, h2, h3⟩ := shift_p8_bit (testBit_land_left h)
  have hr := testBit_Rank3 (testBit_land_right h3)
  exact ⟨by omega, h2, testBit_land_left h3⟩

theorem push2b_core {y ES i : Nat} (h : (shift_bb (-8) (y &&& Rank6BB) &&& ES).testBit i = true) :
    i + 8 < 64 ∧ y.testBit (i + 8) = true := by
  obtain ⟨h1, h2⟩ := shift_m8_bit (testBit_land_left h)
  exact ⟨h1, testBit_land_left h2⟩

theorem pushBB1_w {pos : Pos} {target : Nat} {ci : Option CheckInfo} {Ty i : Nat}
    (h : ((pushBB pos target ci WHITE Ty).1).testBit i = true) :
    8 ≤ i ∧ i < 64 ∧ (pawnsNotOn7BB pos WHITE).testBit (i - 8) = true := by
  have e8 : UpD WHITE = 8 := rfl
  by_cases hE : Ty = EVASIONS
  · have hQ : Ty ≠ QUIET_CHECKS := by rw [hE]; decide
    simp only [pushBB, if_pos hE, if_neg hQ, e8] at h
    exact shift_p8_bit (testBit_land_left (testBit_land_left h))
  · by_cases hQC : Ty = QUIET_CHECKS
    · simp only [pushBB, if_pos hQC, if_neg hE, e8] at h
      split at h
      · rcases testBit_lor_cases h with h | h
        · exact shift_p8_bit (testBit_land_left (testBit_land_left h))
        · obtain ⟨a, b, c⟩ := shift_p8_bit (testBit_land_left (testBit_land_left h))
          exact ⟨a, b, testBit_land_left c⟩
      · exact shift_p8_bit (testBit_land_left (testBit_land_left h))
    · simp only [pushBB, if_neg hE, if_neg hQC, e8] at h
      exact shift_p8_bit (testBit_land_left h)

theorem pushBB2_w {pos : Pos} {target : Nat} {ci : Option CheckInfo} {Ty i : Nat}
    (h : ((pushBB pos target ci WHITE Ty).2).testBit i = true) :
    24 ≤ i ∧ i < 64 ∧ (pawnsNotOn7BB pos WHITE).testBit (i - 16) = true := by
  have e8 : UpD WHITE = 8 := rfl
  have e3 : TRank3 WHITE = Rank3BB := rfl
  have esub : i - 8 - 8 = i - 16 := by omega
  by_cases hE : Ty = EVASIONS
  · have hQ : Ty ≠ QUIET_CHECKS := by rw [hE]; decide
    simp only [pushBB, if_pos hE, if_neg hQ, e8, e3] at h
    obtain ⟨a, b, c⟩ := push2w_core (testBit_land_left h)
    obtain ⟨-, -, hp⟩ := shift_p8_bit (testBit_land_left c)
    exact ⟨a, b, esub ▸ hp⟩
  · by_cases hQC : Ty = QUIET_CHECKS
    · simp only [pushBB, if_pos hQC, if_neg hE, e8, e3] at h
      split at h
      · rcases testBit_lor_cases h with h | h
        · obtain ⟨a, b, c⟩ := push2w_core (testBit_land_left h)
          obtain ⟨-, -, hp⟩ := shift_p8_bit (testBit_land_left c)
          exact ⟨a, b, esub ▸ hp⟩
        · obtain ⟨a, b, c⟩ := push2w_core h
          obtain ⟨-, -, hp⟩ := shift_p8_bit (testBit_land_left (testBit_land_left c))
          exact ⟨a, b, esub ▸ testBit_land_left hp⟩
      · obtain ⟨a, b, c⟩ := push2w_core (testBit_land_left h)
        obtain ⟨-, -, hp⟩ := shift_p8_bit (testBit_land_left c)
        exact ⟨a, b, esub ▸ hp⟩
    · simp only [pushBB, if_neg hE, if_neg hQC, e8, e3] at h
      obtain ⟨a, b, c⟩ := push2w_core h
      obtain ⟨-, -, hp⟩ := shift_p8_bit (testBit_land_left c)
      exact ⟨a, b, esub ▸ hp⟩

theorem pushBB1_b {pos : Pos} {target : Nat} {ci : Option CheckInfo} {Ty i : Nat}
    (h : ((pushBB pos target ci BLACK Ty).1).testBit i = true) :
    i + 8 < 64 ∧ (pawnsNotOn7BB pos BLACK).testBit (i + 8) = true := by
  have e8 : UpD BLACK = -8 := rfl
  by_cases hE : Ty = EVASIONS
  · have hQ : Ty ≠ QUIET_CHECKS := by rw [hE]; decide
    simp only [pushBB, if_pos hE, if_neg hQ, e8] at h
    exact shift_m8_bit (testBit_land_left (testBit_land_left h))
  · by_cases hQC : Ty = QUIET_CHECKS
    · simp only [pushBB, if_pos hQC, if_neg hE, e8] at h
      split at h
      · rcases testBit_lor_cases h with h | h
        · exact shift_m8_bit (testBit_land_left (testBit_land_left h))
        · obtain ⟨a, c⟩ := shift_m8_bit (testBit_land_left (testBit_land_left h))
          exact ⟨a, testBit_land_left c⟩
      · exact shift_m8_bit (testBit_land_left (testBit_land_left h))
    · simp only [pushBB, if_neg hE, if_neg hQC, e8] at h
      exact shift_m8_bit (testBit_land_left h)

theorem pushBB2_b {pos : Pos} {target : Nat} {ci : Option CheckInfo} {Ty i : Nat}
    (h : ((pushBB pos target ci BLACK Ty).2).testBit i = true) :
    i + 16 < 64 ∧ (pawnsNotOn7BB pos BLACK).testBit (i + 16) = true := by
  have e8 : UpD BLACK = -8 := rfl
  have e3 : TRank3 BLACK = Rank6BB := rfl
  have esub : i + 8 + 8 = i + 16 := by omega
  by_cases hE : Ty = EVASIONS
  · have hQ : Ty ≠ QUIET_CHECKS := by rw [hE]; decide
    simp only [pushBB, if_pos hE, if_neg hQ, e8, e3] at h
    obtain ⟨a, c⟩ := push2b_core (testBit_land_left h)
    obtain ⟨b, hp⟩ := shift_m8_bit (testBit_land_left c)
    exact ⟨esub ▸ b, esub ▸ hp⟩
  · by_cases hQC : Ty = QUIET_CHECKS
    · simp only [pushBB, if_pos hQC, if_neg hE, e8, e3] at h
      split at h
      · rcases testBit_lor_cases h with h | h
        · obtain ⟨a, c⟩ := push2b_core (testBit_land_left h)
          obtain ⟨b, hp⟩ := shift_m8_bit (testBit_land_left c)
          exact ⟨esub ▸ b, esub ▸ hp⟩
        · obtain ⟨a, c⟩ := push2b_core h
          obtain ⟨b, hp⟩ := shift_m8_bit (testBit_land_left (testBit_land_left c))
          exact ⟨esub ▸ b, esub ▸ testBit_land_left hp⟩
      · obtain ⟨a, c⟩ := push2b_core (testBit_land_left h)
        obtain ⟨b, hp⟩ := shift_m8_bit (testBit_land_left c)
        exact ⟨esub ▸ b, esub ▸ hp⟩
    · simp only [pushBB, if_neg hE, if_neg hQC, e8, e3] at h
      obtain ⟨a, c⟩ := push2b_core h
      obtain ⟨b, hp⟩ := shift_m8_bit (testBit_land_left c)
      exact ⟨esub ▸ b, esub ▸ hp⟩

/-! ### Membership characterizations of the generator chunks -/

theorem mem_pawn_pushes_w {pos : Pos} {target : Nat} {ci : Option CheckInfo} {Ty : Nat} {m : Move}
    (h : m ∈ pawn_pushes pos target ci WHITE Ty) :
    m.kind = MoveKind.normal ∧ m.toSq < 64
      ∧ (pawnsNotOn7BB pos WHITE).testBit m.fromSq = true
      ∧ (pushEmpty pos target Ty).testBit m.toSq = true := by
  unfold pawn_pushes at h
  split at h
  · simp at h
  · rcases List.mem_append.mp h with h | h <;> rw [mem_map_squaresOf] at h
    · obtain ⟨s, ⟨hlt, hs⟩, he⟩ := h
      obtain ⟨b1, b2, b3⟩ := pushBB1_w hs
      subst he
      refine ⟨rfl, hlt, ?_, pushBB_empty (Or.inl hs)⟩
      simpa [make_move, show UpD WHITE = (8:Int) from rfl, sqSub_p8] using b3
    · obtain ⟨s, ⟨hlt, hs⟩, he⟩ := h
      obtain ⟨b1, b2, b3⟩ := pushBB2_w hs
      subst he
      refine ⟨rfl, hlt, ?_, pushBB_empty (Or.inr hs)⟩
      simpa [make_move, show UpD WHITE = (8:Int) from rfl, sqSub_p8,
        show s - 8 - 8 = s - 16 from by omega] using b3

theorem mem_pawn_pushes_b {pos : Pos} {target : Nat} {ci : Option CheckInfo} {Ty : Nat} {m : Move}
    (h : m ∈ pawn_pushes pos target ci BLACK Ty) :
    m.kind = MoveKind.normal ∧ m.toSq < 64
      ∧ (pawnsNotOn7BB pos BLACK).testBit m.fromSq = true
      ∧ (pushEmpty pos target Ty).testBit m.toSq = true := by
  unfold pawn_pushes at h
  split at h
  · simp at h
  · rcases List.mem_append.mp h with h | h <;> rw [mem_map_squaresOf] at h
    · obtain ⟨s, ⟨hlt, hs⟩, he⟩ := h
      obtain ⟨b1, b2⟩ := pushBB1_b hs
      subst he
      refine ⟨rfl, hlt, ?_, pushBB_empty (Or.inl hs)⟩
      simpa [make_move, show UpD BLACK = (-8:Int) from rfl, sqSub_m8] using b2
    · obtain ⟨s, ⟨hlt, hs⟩, he⟩ := h
      obtain ⟨b1, b2⟩ := pushBB2_b hs
      subst he
      refine ⟨rfl, hlt, ?_, pushBB_empty (Or.inr hs)⟩
      simpa [make_move, show UpD BLACK = (-8:Int) from rfl, sqSub_m8,
        show s + 8 + 8 = s + 16 from by omega] using b2

theorem mem_pawn_promotions {pos : Pos} {target : Nat} {ci : Option CheckInfo} {Us Ty : Nat} {m : Move}
    (h : m ∈ pawn_promotions pos target ci Us Ty) :
    ∃ s, s < 64 ∧
      (((shift_bb (RightD Us) (pawnsOn7BB pos Us) &&& pawnEnemies pos target Us Ty).testBit s = true
          ∧ m ∈ make_promotions s ci Ty (RightD Us))
       ∨ ((shift_bb (LeftD Us) (pawnsOn7BB pos Us) &&& pawnEnemies pos target Us Ty).testBit s = true
          ∧ m ∈ make_promotions s ci Ty (LeftD Us))
       ∨ ((shift_bb (UpD Us) (pawnsOn7BB pos Us) &&& promoEmpty pos target Ty).testBit s = true
          ∧ m ∈ make_promotions s ci Ty (UpD Us))) := by
  simp only [pawn_promotions] at h
  split at h
  · rcases List.mem_append.mp h with h1 | h1
    · rcases List.mem_append.mp h1 with h2 | h2 <;> rw [mem_flatMap_squaresOf] at h2
      · obtain ⟨s, ⟨hlt, hs⟩, hm⟩ := h2
        exact ⟨s, hlt, Or.inl ⟨hs, hm⟩⟩
      · obtain ⟨s, ⟨hlt, hs⟩, hm⟩ := h2
        exact ⟨s, hlt, Or.inr (Or.inl ⟨hs, hm⟩)⟩
    · rw [mem_flatMap_squaresOf] at h1
      obtain ⟨s, ⟨hlt, hs⟩, hm⟩ := h1
      exact ⟨s, hlt, Or.inr (Or.inr ⟨hs, hm⟩)⟩
  · simp at h

theorem mem_pawn_caps_ep {pos : Pos} {target : Nat} {ci : Option CheckInfo} {Us Ty : Nat} {m : Move}
    (h : m ∈ pawn_caps_ep pos target ci Us Ty) :
    (∃ s, s < 64
       ∧ (shift_bb (RightD Us) (pawnsNotOn7BB pos Us) &&& pawnEnemies pos target Us Ty).testBit s = true
       ∧ m = make_move (sqSub s (RightD Us)) s)
    ∨ (∃ s, s < 64
       ∧ (shift_bb (LeftD Us) (pawnsNotOn7BB pos Us) &&& pawnEnemies pos target Us Ty).testBit s = true
       ∧ m = make_move (sqSub s (LeftD Us)) s)
    ∨ (∃ s, s < 64
       ∧ (pawnsNotOn7BB pos Us &&& pawnAttacksBB (ThemC Us) pos.ep_square).testBit s = true
       ∧ m = make_enpassant s pos.ep_square
       ∧ pos.ep_square ≠ 0
       ∧ ¬ (Ty = EVASIONS ∧ target &&& sq_bb (sqSub pos.ep_square (UpD Us)) = 0)) := by
  simp only [pawn_caps_ep] at h
  split at h
  · rcases List.mem_append.mp h with h1 | h1
    · rcases List.mem_append.mp h1 with h2 | h2
      · rw [mem_map_squaresOf] at h2
        obtain ⟨s, ⟨hlt, hs⟩, he⟩ := h2
        exact Or.inl ⟨s, hlt, hs, he.symm⟩
      · rw [mem_map_squaresOf] at h2
        obtain ⟨s, ⟨hlt, hs⟩, he⟩ := h2
        exact Or.inr (Or.inl ⟨s, hlt, hs, he.symm⟩)
    · refine Or.inr (Or.inr ?_)
      split at h1
      · split at h1
        · simp at h1
        · rw [mem_map_squaresOf] at h1
          obtain ⟨s, ⟨hlt, hs⟩, he⟩ := h1
          rename_i hep hne
          exact ⟨s, hlt, hs, he.symm, hep, hne⟩
      · simp at h1
  · simp at h

theorem mem_generate_moves {pos : Pos} {us target : Nat} {ci : Option CheckInfo}
    {Pt : Nat} {Checks : Bool} {m : Move}
    (h : m ∈ generate_moves pos us target ci Pt Checks) :
    ∃ f ∈ pos.piece_list us Pt, ∃ s, s < 64 ∧ m = make_move f s
      ∧ (pos.attacks_from Pt f &&& target).testBit s = true
      ∧ (Checks = true → ciDc ci &&& sq_bb f = 0) := by
  unfold generate_moves at h
  rw [List.mem_flatMap] at h
  obtain ⟨f, hf, hm⟩ := h
  split at hm
  · simp at hm
  · split at hm
    · simp at hm
    · rename_i hdc
      rw [mem_map_squaresOf] at hm
      obtain ⟨s, ⟨hlt, hs⟩, he⟩ := hm
      refine ⟨f, hf, s, hlt, he.symm, ?_, ?_⟩
      · split at hs
        · exact testBit_land_left hs
        · exact hs
      · intro hc
        by_contra hneq
        exact hdc ⟨hc, hneq⟩

theorem mem_generate_castling {pos : Pos} {us : Nat} {ci : Option CheckInfo}
    {Cr : Nat} {Checks C960 : Bool} {m : Move}
    (h : m ∈ generate_castling pos us ci Cr Checks C960) :
    m = make_castling (pos.square_of us KING) (pos.castling_rook_square Cr)
      ∧ pos.can_castle_cr Cr = true := by
  unfold generate_castling at h
  split at h
  · simp at h
  · rename_i hc
    push_neg at hc
    refine ⟨?_, hc.2⟩
    simp only at h
    repeat' split at h
    all_goals
      first
        | (rw [List.mem_singleton] at h; exact h)
        | simp at h

theorem genTarget_captures (pos : Pos) : genTarget pos CAPTURES = pos.pieces_c (pos.stm ^^^ 1) := rfl
theorem genTarget_quiets (pos : Pos) : genTarget pos QUIETS = compl64 pos.pieces := rfl
theorem genTarget_non_evasions (pos : Pos) :
    genTarget pos NON_EVASIONS = compl64 (pos.pieces_c pos.stm) := rfl

/-- Decomposition of generate_all into its seven chunks (lines 256-286). -/
theorem mem_generate_all {pos : Pos} {target : Nat} {ci : Option CheckInfo} {Us Ty : Nat} {m : Move}
    (h : m ∈ generate_all pos target ci Us Ty) :
    m ∈ generate_pawn_moves pos target ci Us Ty
    ∨ m ∈ generate_moves pos Us target ci KNIGHT (decide (Ty = QUIET_CHECKS))
    ∨ m ∈ generate_moves pos Us target ci BISHOP (decide (Ty = QUIET_CHECKS))
    ∨ m ∈ generate_moves pos Us target ci ROOK (decide (Ty = QUIET_CHECKS))
    ∨ m ∈ generate_moves pos Us target ci QUEEN (decide (Ty = QUIET_CHECKS))
    ∨ (Ty ≠ QUIET_CHECKS ∧ Ty ≠ EVASIONS
        ∧ ∃ s, s < 64 ∧ (kingAttacksBB (pos.square_of Us KING) &&& target).testBit s = true
            ∧ m = make_move (pos.square_of Us KING) s)
    ∨ (Ty ≠ CAPTURES ∧ Ty ≠ EVASIONS ∧ pos.can_castle_c Us = true
        ∧ (m ∈ generate_castling pos Us ci (make_castling_right Us KING_SIDE)
              (decide (Ty = QUIET_CHECKS)) pos.is_chess960
           ∨ m ∈ generate_castling pos Us ci (make_castling_right Us QUEEN_SIDE)
              (decide (Ty = QUIET_CHECKS)) pos.is_chess960)) := by
  unfold generate_all at h
  simp only at h
  rcases List.mem_append.mp h with h1 | h1
  · rcases List.mem_append.mp h1 with h2 | h2
    · rcases List.mem_append.mp h2 with h3 | h3
      · rcases List.mem_append.mp h3 with h4 | h4
        · rcases List.mem_append.mp h4 with h5 | h5
          · rcases List.mem_append.mp h5 with h6 | h6
            · exact Or.inl h6
            · exact Or.inr (Or.inl h6)
          · exact Or.inr (Or.inr (Or.inl h5))
        · exact Or.inr (Or.inr (Or.inr (Or.inl h4)))
      · exact Or.inr (Or.inr (Or.inr (Or.inr (Or.inl h3))))
    · split at h2
      · rename_i hk
        rw [mem_map_squaresOf] at h2
        obtain ⟨s, ⟨hlt, hs⟩, he⟩ := h2
        exact Or.inr (Or.inr (Or.inr (Or.inr (Or.inr (Or.inl ⟨hk.1, hk.2, s, hlt, hs, he.symm⟩)))))
      · simp at h2
  · split at h1
    · rename_i hk
      rcases List.mem_append.mp h1 with h2 | h2
      · exact Or.inr (Or.inr (Or.inr (Or.inr (Or.inr (Or.inr ⟨hk.1, hk.2.1, hk.2.2, Or.inl h2⟩)))))
      · exact Or.inr (Or.inr (Or.inr (Or.inr (Or.inr (Or.inr ⟨hk.1, hk.2.1, hk.2.2, Or.inr h2⟩)))))
    · simp at h1

/-! ### Claim C1 -/

theorem gen_all_captures_to {pos : Pos} {T : Nat} {ci : Option CheckInfo} {Us : Nat} {m : Move}
    (h : m ∈ generate_all pos T ci Us CAPTURES) :
    T.testBit m.toSq = true ∨ m.kind = MoveKind.enpassant
      ∨ ∃ pt, m.kind = MoveKind.promotion pt := by
  rcases mem_generate_all h with hp | hm | hm | hm | hm | hk | hc
  case _ =>
    rcases List.mem_append.mp hp with h1 | h1
    · rcases List.mem_append.mp h1 with h2 | h2
      · rw [show pawn_pushes pos T ci Us CAPTURES = [] from by simp [pawn_pushes]] at h2
        simp at h2
      · obtain ⟨s, hlt, hcase⟩ := mem_pawn_promotions h2
        rcases hcase with ⟨-, hmem⟩ | ⟨-, hmem⟩ | ⟨-, hmem⟩ <;>
          exact Or.inr (Or.inr (mem_make_promotions hmem).2.2)
    · rcases mem_pawn_caps_ep h1 with ⟨s, hlt, hs, he⟩ | ⟨s, hlt, hs, he⟩ | ⟨s, hlt, hs, he, -, -⟩
      · subst he
        exact Or.inl (testBit_land_right hs)
      · subst he
        exact Or.inl (testBit_land_right hs)
      · subst he
        exact Or.inr (Or.inl rfl)
  case _ =>
    obtain ⟨f, -, s, -, he, hb, -⟩ := mem_generate_moves hm
    subst he
    exact Or.inl (testBit_land_right hb)
  case _ =>
    obtain ⟨f, -, s, -, he, hb, -⟩ := mem_generate_moves hm
    subst he
    exact Or.inl (testBit_land_right hb)
  case _ =>
    obtain ⟨f, -, s, -, he, hb, -⟩ := mem_generate_moves hm
    subst he
    exact Or.inl (testBit_land_right hb)
  case _ =>
    obtain ⟨f, -, s, -, he, hb, -⟩ := mem_generate_moves hm
    subst he
    exact Or.inl (testBit_land_right hb)
  case _ =>
    obtain ⟨-, -, s, -, hb, he⟩ := hk
    subst he
    exact Or.inl (testBit_land_right hb)
  case _ =>
    exact absurd rfl hc.1

/-- C1 (amended): every move returned by generate_captures lands on a square
occupied by the opponent, or is an en-passant capture, or is a promotion
(generate_captures also emits queen promotions whose destination, for the
straight push, is an empty last-rank square). -/
theorem claim_C1 (pos : Pos) (m : Move) (h : m ∈ generate_captures pos) :
    (pos.pieces_c (pos.stm ^^^ 1)).testBit m.toSq = true
    ∨ m.kind = MoveKind.enpassant
    ∨ ∃ pt, m.kind = MoveKind.promotion pt := by
  unfold generate_captures generate at h
  rw [genTarget_captures] at h
  split at h
  · exact gen_all_captures_to h
  · exact gen_all_captures_to h

/-- C1 (counterexample): with only a white pawn on a7 and kings on a1/h8,
white to move and not in check, generate_captures emits the straight queen
promotion a7-a8=Q, whose destination a8 is an empty square (in particular not
occupied by the opponent) and which is not an en-passant capture.  This
refutes the claim that every generate_captures move lands on an
opponent-occupied square or is en passant. -/
theorem claim_C1_cex :
    posA.checkers = 0
    ∧ (⟨48, 56, MoveKind.promotion QUEEN⟩ : Move) ∈ generate_captures posA
    ∧ posA.pieces.testBit 56 = false
    ∧ (posA.pieces_c (posA.stm ^^^ 1)).testBit 56 = false
    ∧ (⟨48, 56, MoveKind.promotion QUEEN⟩ : Move).kind ≠ MoveKind.enpassant := by
  exact ⟨by decide, by decide, by decide, by decide, by decide⟩

/-! ### Claim C2 -/

theorem compl64_bit {x i : Nat} (h : (compl64 x).testBit i = true) :
    i < 64 ∧ x.testBit i = false := by
  rw [testBit_compl64] at h
  simp at h
  exact h

theorem mem_make_promotions_quiets {s : Nat} {ci : Option CheckInfo} {D : Int} {m : Move}
    (h : m ∈ make_promotions s ci QUIETS D) :
    m = make_promotion (sqSub s D) s ROOK ∨ m = make_promotion (sqSub s D) s BISHOP
      ∨ m = make_promotion (sqSub s D) s KNIGHT := by
  simp only [make_promotions, List.mem_append, mem_ite_nil, List.mem_cons,
    List.mem_singleton, List.not_mem_nil, or_false] at h
  norm_num [QUIETS, CAPTURES, EVASIONS, NON_EVASIONS, QUIET_CHECKS] at h
  tauto

theorem gen_all_quiets_to {pos : Pos} {ci : Option CheckInfo} {Us : Nat} {m : Move}
    (hUs : Us = WHITE ∨ Us = BLACK)
    (h : m ∈ generate_all pos (compl64 pos.pieces) ci Us QUIETS) :
    ((m.toSq < 64 ∧ pos.pieces.testBit m.toSq = false)
     ∨ (∃ pt, m.kind = MoveKind.promotion pt ∧ pt ≠ QUEEN
          ∧ (pos.pieces_c (ThemC Us)).testBit m.toSq = true)
     ∨ m.kind = MoveKind.castling)
    ∧ m.kind ≠ MoveKind.promotion QUEEN ∧ m.kind ≠ MoveKind.enpassant := by
  rcases mem_generate_all h with hp | hm | hm | hm | hm | hk | hc
  case _ =>
    rcases List.mem_append.mp hp with h1 | h1
    · rcases List.mem_append.mp h1 with h2 | h2
      · rcases hUs with hw | hw <;> subst hw
        · obtain ⟨hkind, hlt, -, hemp⟩ := mem_pawn_pushes_w h2
          rw [show pushEmpty pos (compl64 pos.pieces) QUIETS = compl64 pos.pieces from rfl] at hemp
          obtain ⟨a, b⟩ := compl64_bit hemp
          exact ⟨Or.inl ⟨a, b⟩, by rw [hkind]; simp, by rw [hkind]; simp⟩
        · obtain ⟨hkind, hlt, -, hemp⟩ := mem_pawn_pushes_b h2
          rw [show pushEmpty pos (compl64 pos.pieces) QUIETS = compl64 pos.pieces from rfl] at hemp
          obtain ⟨a, b⟩ := compl64_bit hemp
          exact ⟨Or.inl ⟨a, b⟩, by rw [hkind]; simp, by rw [hkind]; simp⟩
      · obtain ⟨s, hlt, hcase⟩ := mem_pawn_promotions h2
        rcases hcase with ⟨hs, hmem⟩ | ⟨hs, hmem⟩ | ⟨hs, hmem⟩
        · have hen := testBit_land_right hs
          rw [show pawnEnemies pos (compl64 pos.pieces) Us QUIETS = pos.pieces_c (ThemC Us) from rfl] at hen
          rcases mem_make_promotions_quiets hmem with he | he | he <;> subst he <;>
            exact ⟨Or.inr (Or.inl ⟨_, rfl, by decide, hen⟩), by simp [make_promotion]; decide,
              by simp [make_promotion]⟩
        · have hen := testBit_land_right hs
          rw [show pawnEnemies pos (compl64 pos.pieces) Us QUIETS = pos.pieces_c (ThemC Us) from rfl] at hen
          rcases mem_make_promotions_quiets hmem with he | he | he <;> subst he <;>
            exact ⟨Or.inr (Or.inl ⟨_, rfl, by decide, hen⟩), by simp [make_promotion]; decide,
              by simp [make_promotion]⟩
        · have hen := testBit_land_right hs
          rw [show promoEmpty pos (compl64 pos.pieces) QUIETS = compl64 pos.pieces from rfl] at hen
          obtain ⟨a, b⟩ := compl64_bit hen
          rcases mem_make_promotions_quiets hmem with he | he | he <;> subst he <;>
            exact ⟨Or.inl ⟨a, b⟩, by simp [make_promotion]; decide, by simp [make_promotion]⟩
    · rw [show pawn_caps_ep pos (compl64 pos.pieces) ci Us QUIETS = [] from by
        unfold pawn_caps_ep
        rw [if_neg (by decide : ¬ (QUIETS = CAPTURES ∨ QUIETS = EVASIONS ∨ QUIETS = NON_EVASIONS))]] at h1
      simp at h1
  case _ =>
    obtain ⟨f, -, s, -, he, hb, -⟩ := mem_generate_moves hm
    subst he
    obtain ⟨a, b⟩ := compl64_bit (testBit_land_right hb)
    exact ⟨Or.inl ⟨a, b⟩, by simp [make_move], by simp [make_move]⟩
  case _ =>
    obtain ⟨f, -, s, -, he, hb, -⟩ := mem_generate_moves hm
    subst he
    obtain ⟨a, b⟩ := compl64_bit (testBit_land_right hb)
    exact ⟨Or.inl ⟨a, b⟩, by simp [make_move], by simp [make_move]⟩
  case _ =>
    obtain ⟨f, -, s, -, he, hb, -⟩ := mem_generate_moves hm
    subst he
    obtain ⟨a, b⟩ := compl64_bit (testBit_land_right hb)
    exact ⟨Or.inl ⟨a, b⟩, by simp [make_move], by simp [make_move]⟩
  case _ =>
    obtain ⟨f, -, s, -, he, hb, -⟩ := mem_generate_moves hm
    subst he
    obtain ⟨a, b⟩ := compl64_bit (testBit_land_right hb)
    exact ⟨Or.inl ⟨a, b⟩, by simp [make_move], by simp [make_move]⟩
  case _ =>
    obtain ⟨-, -, s, -, hb, he⟩ := hk
    subst he
    obtain ⟨a, b⟩ := compl64_bit (testBit_land_right hb)
    exact ⟨Or.inl ⟨a, b⟩, by simp [make_move], by simp [make_move]⟩
  case _ =>
    obtain ⟨-, -, -, hcc⟩ := hc
    rcases hcc with hcc | hcc <;>
    · obtain ⟨he, -⟩ := mem_generate_castling hcc
      subst he
      exact ⟨Or.inr (Or.inr rfl), by simp [make_castling], by simp [make_castling]⟩

/-- C2 (amended): every move returned by generate_quiets either lands on an
empty square, or is an underpromotion capture (rook, bishop or knight, onto
an opponent-occupied square), or is a castling move; no generate_quiets move
is a promotion to queen (in particular not a queen promotion via capture)
and none is an en-passant capture. -/
theorem claim_C2 (pos : Pos) (m : Move) (h : m ∈ generate_quiets pos) :
    ((m.toSq < 64 ∧ pos.pieces.testBit m.toSq = false)
     ∨ (∃ pt, m.kind = MoveKind.promotion pt ∧ pt ≠ QUEEN
          ∧ (pos.pieces_c (ThemC pos.stm)).testBit m.toSq = true)
     ∨ m.kind = MoveKind.castling)
    ∧ m.kind ≠ MoveKind.promotion QUEEN ∧ m.kind ≠ MoveKind.enpassant := by
  unfold generate_quiets generate at h
  rw [genTarget_quiets] at h
  split at h
  · rename_i hstm
    have := gen_all_quiets_to (Or.inl rfl) h
    rwa [show ThemC WHITE = ThemC pos.stm from by rw [hstm]] at this
  · rename_i hstm
    have := gen_all_quiets_to (Or.inr rfl) h
    rwa [show ThemC BLACK = ThemC pos.stm from by simp [ThemC, hstm]] at this

/-- C2 (counterexample): with a white pawn on b7, a black rook on a8 and kings
e1/h8, white to move and not in check, generate_quiets emits the capturing
underpromotion b7xa8=R, whose destination square a8 is occupied.  This
refutes the claim that every generate_quiets move lands on an empty square. -/
theorem claim_C2_cex :
    posB.checkers = 0
    ∧ (⟨49, 56, MoveKind.promotion ROOK⟩ : Move) ∈ generate_quiets posB
    ∧ posB.pieces.testBit 56 = true := by
  exact ⟨by decide, by decide, by decide⟩

/-! ### Claim C3 -/

theorem ciKsq_some (c : CheckInfo) : ciKsq (some c) = c.ksq := rfl

/-- C3 (amended): for a pawn reaching the last rank on square tsq,
make_promotions emits exactly a queen promotion for CAPTURES; exactly the
rook, bishop and knight underpromotions for QUIETS; all four promotion
pieces for EVASIONS and NON_EVASIONS; and for QUIET_CHECKS exactly one
knight underpromotion when a knight on the destination square would give
direct check to the opponent king (the destination's knight-attack set
contains the king square), and nothing otherwise. -/
theorem claim_C3 (tsq : Nat) (c : CheckInfo) (D : Int) :
    make_promotions tsq (some c) CAPTURES D = [make_promotion (sqSub tsq D) tsq QUEEN]
  ∧ make_promotions tsq (some c) QUIETS D =
      [make_promotion (sqSub tsq D) tsq ROOK, make_promotion (sqSub tsq D) tsq BISHOP,
       make_promotion (sqSub tsq D) tsq KNIGHT]
  ∧ make_promotions tsq (some c) EVASIONS D =
      [make_promotion (sqSub tsq D) tsq QUEEN, make_promotion (sqSub tsq D) tsq ROOK,
       make_promotion (sqSub tsq D) tsq BISHOP, make_promotion (sqSub tsq D) tsq KNIGHT]
  ∧ make_promotions tsq (some c) NON_EVASIONS D =
      [make_promotion (sqSub tsq D) tsq QUEEN, make_promotion (sqSub tsq D) tsq ROOK,
       make_promotion (sqSub tsq D) tsq BISHOP, make_promotion (sqSub tsq D) tsq KNIGHT]
  ∧ ((knightAttacksBB tsq).testBit c.ksq = true →
       make_promotions tsq (some c) QUIET_CHECKS D = [make_promotion (sqSub tsq D) tsq KNIGHT])
  ∧ ((knightAttacksBB tsq).testBit c.ksq = false →
       make_promotions tsq (some c) QUIET_CHECKS D = []) := by
  refine ⟨?_, ?_, ?_, ?_, ?_, ?_⟩
  · unfold make_promotions
    rw [if_pos (by decide), if_neg (by decide), if_neg (fun hc => absurd hc.1 (by decide))]
    simp
  · unfold make_promotions
    rw [if_neg (by decide), if_pos (by decide), if_neg (fun hc => absurd hc.1 (by decide))]
    simp
  · unfold make_promotions
    rw [if_pos (by decide), if_pos (by decide), if_neg (fun hc => absurd hc.1 (by decide))]
    simp
  · unfold make_promotions
    rw [if_pos (by decide), if_pos (by decide), if_neg (fun hc => absurd hc.1 (by decide))]
    simp
  · intro hk
    unfold make_promotions
    rw [if_neg (by decide), if_neg (by decide),
      if_pos ⟨rfl, by rw [ciKsq_some]; exact land_sq_bb_ne_zero.mpr hk⟩]
    simp
  · intro hk
    unfold make_promotions
    have hneg : ¬ (QUIET_CHECKS = QUIET_CHECKS
        ∧ knightAttacksBB tsq &&& sq_bb (ciKsq (some c)) ≠ 0) := by
      rintro ⟨-, hc⟩
      rw [ciKsq_some, land_sq_bb_ne_zero] at hc
      exact absurd hc (by simp [hk])
    rw [if_neg (by decide), if_neg (by decide), if_neg hneg]
    simp

/-- C3 (counterexample): with a white pawn on a7 and kings a1/h8, white to
move, the QUIETS category generates the rook, bishop and knight promotions
a7-a8 but not the queen promotion; likewise make_promotions at QUIETS emits
no queen promotion.  This refutes the claim that all four promotion pieces
are generated for QUIETS. -/
theorem claim_C3_cex :
    (⟨48, 56, MoveKind.promotion QUEEN⟩ : Move) ∉ generate_quiets posA
    ∧ (⟨48, 56, MoveKind.promotion ROOK⟩ : Move) ∈ generate_quiets posA
    ∧ (⟨48, 56, MoveKind.promotion BISHOP⟩ : Move) ∈ generate_quiets posA
    ∧ (⟨48, 56, MoveKind.promotion KNIGHT⟩ : Move) ∈ generate_quiets posA
    ∧ (⟨48, 56, MoveKind.promotion QUEEN⟩ : Move) ∉ make_promotions 56 none QUIETS 8 := by
  exact ⟨by decide, by decide, by decide, by decide, by decide⟩

/-! ### Claim C6 -/

/-- C6: a castling move is never generated when any square the king transits
(from the king's destination square back to, but excluding, its origin
square, which is exactly the square list castleTransit) is attacked by an
opponent piece; no assumption at all is made about whether the king's origin
square is attacked. -/
theorem claim_C6 (pos : Pos) (us : Nat) (ci : Option CheckInfo) (Cr : Nat)
    (Checks Chess960 : Bool) (s : Nat)
    (hs : s ∈ castleTransit pos us Cr Chess960)
    (hatt : pos.attackers_to s &&& pos.pieces_c (us ^^^ 1) ≠ 0) :
    generate_castling pos us ci Cr Checks Chess960 = [] := by
  unfold generate_castling
  split
  · rfl
  · have hp : ((castleTransit pos us Cr Chess960).any
        fun t => decide (pos.attackers_to t &&& pos.pieces_c (us ^^^ 1) ≠ 0)) = true :=
      List.any_eq_true.mpr ⟨s, hs, decide_eq_true hatt⟩
    simp only [hp]
    simp

/-- C6 (witness): in the position with white king e1, white rook h1, black
rook g8 and black king c8, white's kingside transit square g1 is attacked, so
the kingside castling move is not generated. -/
theorem claim_C6_witness :
    (6 ∈ castleTransit posD 0 1 false
      ∧ posD.attackers_to 6 &&& posD.pieces_c (0 ^^^ 1) ≠ 0)
    ∧ generate_castling posD 0 none 1 false false = [] :=
  ⟨⟨by decide, by decide⟩, claim_C6 posD 0 none 1 false false 6 (by decide) (by decide)⟩

/-! ### Claim C7 -/

theorem pawn_pushes_kind {pos : Pos} {target : Nat} {ci : Option CheckInfo} {Us Ty : Nat} {m : Move}
    (h : m ∈ pawn_pushes pos target ci Us Ty) : m.kind = MoveKind.normal := by
  unfold pawn_pushes at h
  split at h
  · simp at h
  · rcases List.mem_append.mp h with h | h <;>
    · rw [mem_map_squaresOf] at h
      obtain ⟨s, -, he⟩ := h
      subst he
      rfl

/-- C7: in the EVASIONS category, when the square of the double-pushed pawn
(the square directly behind the en-passant square from the mover's view) is
not in the evasion target, no en-passant move is generated by the pawn
generator: an en passant capturing a pawn that is not the checking piece is
never emitted as an evasion. -/
theorem claim_C7 (pos : Pos) (target : Nat) (ci : Option CheckInfo) (Us : Nat)
    (hep : target &&& sq_bb (sqSub pos.ep_square (UpD Us)) = 0) :
    ∀ m ∈ generate_pawn_moves pos target ci Us EVASIONS, m.kind ≠ MoveKind.enpassant := by
  intro m hm
  rcases List.mem_append.mp hm with h1 | h1
  · rcases List.mem_append.mp h1 with h2 | h2
    · rw [pawn_pushes_kind h2]
      simp
    · obtain ⟨s, -, hcase⟩ := mem_pawn_promotions h2
      rcases hcase with ⟨-, hmem⟩ | ⟨-, hmem⟩ | ⟨-, hmem⟩ <;>
      · obtain ⟨-, -, pt, hk⟩ := mem_make_promotions hmem
        rw [hk]
        simp
  · rcases mem_pawn_caps_ep h1 with ⟨s, -, -, he⟩ | ⟨s, -, -, he⟩ | ⟨s, -, -, he, -, hcon⟩
    · subst he; simp [make_move]
    · subst he; simp [make_move]
    · exact absurd ⟨rfl, hep⟩ hcon

/-- C7 (witness): in the en-passant position posC with a target bitboard that
does not contain the double-pushed pawn's square a5, the EVASIONS pawn
generator emits no en-passant move. -/
theorem claim_C7_witness :
    (1 : Nat) &&& sq_bb (sqSub posC.ep_square (UpD 0)) = 0
    ∧ ∀ m ∈ generate_pawn_moves posC 1 none 0 EVASIONS, m.kind ≠ MoveKind.enpassant :=
  ⟨by decide, claim_C7 posC 1 none 0 (by decide)⟩

/-! ### Claim C9 -/

/-- C9: under the position collaborator's en-passant invariant, whenever the
en-passant branch of generate_pawn_moves is reached with a nonzero en-passant
square, both of its assertions hold: the en-passant square lies on the
mover's relative rank 6 (line 203), and the bitboard of mover pawns not on
the seventh rank attacking the square, the b1 of line 211, is nonempty
(line 213) — so the assertions can never fire. -/
theorem claim_C9 (pos : Pos) (Us : Nat) (hUs : Us = WHITE ∨ Us = BLACK)
    (hinv : epInvariant pos Us) (hep : pos.ep_square ≠ 0) :
    rank_of pos.ep_square = relative_rank Us RANK_6
    ∧ pawnsNotOn7BB pos Us &&& pawnAttacksBB (ThemC Us) pos.ep_square ≠ 0 := by
  obtain ⟨hrank, hbit⟩ := hinv hep
  refine ⟨hrank, ?_⟩
  rcases land_ne_zero_iff.mp hbit with ⟨s, hcp, hatt⟩
  rw [land_ne_zero_iff]
  refine ⟨s, ?_, hatt⟩
  rw [pawnsNotOn7BB, Nat.testBit_land, hcp, Bool.true_and, testBit_compl64]
  rcases hUs with hu | hu <;> subst hu
  · rw [show ThemC WHITE = BLACK from rfl] at hatt
    unfold pawnAttacksBB at hatt
    rw [if_neg (by decide)] at hatt
    have hslt : (s + 9 < 64 ∧ pos.ep_square = s + 9) ∨ (s + 7 < 64 ∧ pos.ep_square = s + 7) := by
      rcases testBit_lor_cases hatt with hh | hh
      · obtain ⟨hl, hb⟩ := shift_m9_bit hh
        rw [testBit_sq_bb] at hb
        exact Or.inl ⟨hl, of_decide_eq_true hb⟩
      · obtain ⟨hl, hb⟩ := shift_m7_bit hh
        rw [testBit_sq_bb] at hb
        exact Or.inr ⟨hl, of_decide_eq_true hb⟩
    have hep48 : 40 ≤ pos.ep_square ∧ pos.ep_square < 48 := by
      rw [show relative_rank WHITE RANK_6 = 5 from rfl, rank_of,
        Nat.shiftRight_eq_div_pow] at hrank
      have h8 : (2 : Nat) ^ 3 = 8 := by norm_num
      rw [h8] at hrank
      omega
    have hs48 : s < 48 := by rcases hslt with ⟨-, he⟩ | ⟨-, he⟩ <;> omega
    have hlt64 : s < 64 := by omega
    rw [show TRank7 WHITE = Rank7BB from rfl]
    cases hR : Rank7BB.testBit s
    · simp [hlt64]
    · exact absurd (testBit_Rank7 hR).1 (by omega)
  · rw [show ThemC BLACK = WHITE from rfl] at hatt
    unfold pawnAttacksBB at hatt
    rw [if_pos (by decide)] at hatt
    have hslt : (9 ≤ s ∧ s < 64 ∧ pos.ep_square = s - 9) ∨ (7 ≤ s ∧ s < 64 ∧ pos.ep_square = s - 7) := by
      rcases testBit_lor_cases hatt with hh | hh
      · obtain ⟨h1, h2, hb⟩ := shift_p9_bit hh
        rw [testBit_sq_bb] at hb
        exact Or.inl ⟨h1, h2, of_decide_eq_true hb⟩
      · obtain ⟨h1, h2, hb⟩ := shift_p7_bit hh
        rw [testBit_sq_bb] at hb
        exact Or.inr ⟨h1, h2, of_decide_eq_true hb⟩
    have hep24 : 16 ≤ pos.ep_square ∧ pos.ep_square < 24 := by
      rw [show relative_rank BLACK RANK_6 = 2 from rfl, rank_of,
        Nat.shiftRight_eq_div_pow] at hrank
      have h8 : (2 : Nat) ^ 3 = 8 := by norm_num
      rw [h8] at hrank
      omega
    have hs16 : 16 ≤ s := by rcases hslt with ⟨h1, -, he⟩ | ⟨h1, -, he⟩ <;> omega
    have hlt64 : s < 64 := by rcases hslt with ⟨-, h2, -⟩ | ⟨-, h2, -⟩ <;> omega
    rw [show TRank7 BLACK = Rank2BB from rfl]
    cases hR : Rank2BB.testBit s
    · simp [hlt64]
    · exact absurd (testBit_Rank2 hR).2 (by omega)

/-- C9 (witness): the en-passant position posC (white pawn b5, black pawn a5
just double-pushed, en-passant square a6) satisfies the invariant, and both
assertion facts hold there. -/
theorem claim_C9_witness :
    epInvariant posC 0
    ∧ posC.ep_square ≠ 0
    ∧ (rank_of posC.ep_square = relative_rank 0 RANK_6
       ∧ pawnsNotOn7BB posC 0 &&& pawnAttacksBB (ThemC 0) posC.ep_square ≠ 0) :=
  ⟨fun _ => ⟨by decide, by decide⟩, by decide,
    claim_C9 posC 0 (Or.inl rfl) (fun _ => ⟨by decide, by decide⟩) (by decide)⟩

/-! ### The swap-remove compaction is a permutation of the filter -/

theorem swapFilter_perm_aux (good : Move → Bool) :
    ∀ (n : Nat) (l : List Move), l.length ≤ n → (swapFilter good l).Perm (l.filter good) := by
  intro n
  induction n with
  | zero =>
    intro l hl
    have he : l = [] := List.eq_nil_of_length_eq_zero (Nat.le_zero.mp hl)
    subst he
    rw [swapFilter.eq_1]
    simp
  | succ n ih =>
    intro l hl
    cases l with
    | nil => rw [swapFilter.eq_1]; simp
    | cons m rest =>
      rw [swapFilter.eq_2]
      by_cases hg : good m = true
      · rw [if_pos hg]
        have hfe : (m :: rest).filter good = m :: rest.filter good := by
          simp [List.filter_cons, hg]
        rw [hfe]
        exact List.Perm.cons m (ih rest (by simp at hl; omega))
      · rw [if_neg hg]
        cases hr : rest.getLast? with
        | none =>
          have hre : rest = [] := by
            cases rest with
            | nil => rfl
            | cons a t => simp at hr
          subst hre
          simp [List.filter_cons, hg]
        | some lastm =>
          have hne : rest ≠ [] := by intro hcon; rw [hcon] at hr; simp at hr
          have hlast : rest.getLast hne = lastm := by
            have h2 := List.getLast?_eq_getLast rest hne
            rw [hr] at h2
            exact (Option.some_inj.mp h2).symm
          have hperm : (lastm :: rest.dropLast).Perm rest := by
            have hd : rest.dropLast ++ [lastm] = rest := by
              rw [← hlast]
              exact List.dropLast_append_getLast hne
            have hp2 : (lastm :: rest.dropLast).Perm (rest.dropLast ++ [lastm]) :=
              (List.perm_append_singleton _ _).symm
            rw [hd] at hp2
            exact hp2
          have hlen : (lastm :: rest.dropLast).length ≤ n := by
            simp only [List.length_cons, List.length_dropLast]
            have hp := List.length_pos.mpr hne
            simp at hl
            omega
          have hfe : (m :: rest).filter good = rest.filter good := by
            simp [List.filter_cons, hg]
          rw [hfe]
          exact (ih _ hlen).trans (List.Perm.filter good hperm)

theorem swapFilter_perm (good : Move → Bool) (l : List Move) :
    (swapFilter good l).Perm (l.filter good) :=
  swapFilter_perm_aux good l.length l Nat.le.refl

/-! ### Claim C10 -/

theorem pawn_not_castling {pos : Pos} {target : Nat} {ci : Option CheckInfo} {Us Ty : Nat} {m : Move}
    (h : m ∈ generate_pawn_moves pos target ci Us Ty) : m.kind ≠ MoveKind.castling := by
  rcases List.mem_append.mp h with h1 | h1
  · rcases List.mem_append.mp h1 with h2 | h2
    · rw [pawn_pushes_kind h2]
      simp
    · obtain ⟨s, -, hcase⟩ := mem_pawn_promotions h2
      rcases hcase with ⟨-, hmem⟩ | ⟨-, hmem⟩ | ⟨-, hmem⟩ <;>
      · obtain ⟨-, -, pt, hk⟩ := mem_make_promotions hmem
        rw [hk]
        simp
  · rcases mem_pawn_caps_ep h1 with ⟨s, -, -, he⟩ | ⟨s, -, -, he⟩ | ⟨s, -, -, he, -, -⟩ <;>
      (subst he; simp [make_move, make_enpassant])

theorem gen_all_evasions_not_castling {pos : Pos} {T : Nat} {ci : Option CheckInfo} {Us : Nat}
    {m : Move} (h : m ∈ generate_all pos T ci Us EVASIONS) : m.kind ≠ MoveKind.castling := by
  rcases mem_generate_all h with hp | hm | hm | hm | hm | hk | hc
  case _ => exact pawn_not_castling hp
  case _ =>
    obtain ⟨f, -, s, -, he, -, -⟩ := mem_generate_moves hm
    subst he
    simp [make_move]
  case _ =>
    obtain ⟨f, -, s, -, he, -, -⟩ := mem_generate_moves hm
    subst he
    simp [make_move]
  case _ =>
    obtain ⟨f, -, s, -, he, -, -⟩ := mem_generate_moves hm
    subst he
    simp [make_move]
  case _ =>
    obtain ⟨f, -, s, -, he, -, -⟩ := mem_generate_moves hm
    subst he
    simp [make_move]
  case _ => exact absurd rfl hk.2.1
  case _ => exact absurd rfl hc.2.1

theorem evasions_not_castling {pos : Pos} {m : Move} (h : m ∈ generate_evasions pos) :
    m.kind ≠ MoveKind.castling := by
  unfold generate_evasions at h
  simp only at h
  split at h
  · rw [mem_map_squaresOf] at h
    obtain ⟨s, -, he⟩ := h
    subst he
    simp [make_move]
  · rcases List.mem_append.mp h with h1 | h1
    · rw [mem_map_squaresOf] at h1
      obtain ⟨s, -, he⟩ := h1
      subst he
      simp [make_move]
    · split at h1 <;> exact gen_all_evasions_not_castling h1

theorem castlePath_not_from :
    ∀ (fuel s kfrom : Nat) (K : Int), kfrom ∉ castlePath kfrom K fuel s := by
  intro fuel
  induction fuel with
  | zero =>
    intro s kfrom K
    simp [castlePath]
  | succ n ih =>
    intro s kfrom K
    simp only [castlePath]
    split
    · simp
    · rename_i hne
      simp only [List.mem_cons]
      rintro (he | hmem)
      · exact hne he.symm
      · exact ih _ _ _ hmem

/-- C10: a castling move is never generated while the mover is in check: the
in-check entry points generate_evasions and (when checkers are present)
generate_legal never emit a castling-kind move, because generate_all only
reaches generate_castling for the QUIETS, NON_EVASIONS and QUIET_CHECKS
categories, whose entry points all assert an empty checkers set; moreover no
attack test is ever performed on the king's origin square itself, since the
transit loop never visits kfrom. -/
theorem claim_C10 (pos : Pos) :
    (∀ m ∈ generate_evasions pos, m.kind ≠ MoveKind.castling)
    ∧ (pos.checkers ≠ 0 → ∀ m ∈ generate_legal pos, m.kind ≠ MoveKind.castling)
    ∧ (∀ (fuel s kfrom : Nat) (K : Int), kfrom ∉ castlePath kfrom K fuel s) := by
  refine ⟨fun m hm => evasions_not_castling hm, ?_, castlePath_not_from⟩
  intro hc m hm
  unfold generate_legal at hm
  simp only at hm
  rw [if_pos hc] at hm
  have hmem := (swapFilter_perm _ _).mem_iff.mp hm
  rw [List.mem_filter] at hmem
  exact evasions_not_castling hmem.1

/-- C10 (witness): in the position posE where white's king on e1 is checked
by the black rook on e8, no legal move is a castling move. -/
theorem claim_C10_witness :
    posE.checkers ≠ 0 ∧ ∀ m ∈ generate_legal posE, m.kind ≠ MoveKind.castling :=
  ⟨by decide, (claim_C10 posE).2.1 (by decide)⟩

/-! ### Claim C4 -/

/-- C4 (amended): generate_legal consults the legality test exactly under the
guard legal_test_needed of lines 409-410 — the mover has at least one pinned
piece anywhere (the whole pinned bitboard is nonzero), or the move starts on
the king square, or the move is an en-passant capture — and its output is,
up to the swap-with-last reordering of the compaction, exactly the
pseudo-legal buffer minus the moves for which that guard holds and is_legal
fails. -/
theorem claim_C4 (pos : Pos) :
    (generate_legal pos).Perm
      ((if pos.checkers ≠ 0 then generate_evasions pos else generate_non_evasions pos).filter
        (fun m => ¬ (legal_test_needed (pos.pinned_pieces pos.stm) (pos.square_of pos.stm KING) m = true
                     ∧ pos.is_legal m (pos.pinned_pieces pos.stm) = false))) := by
  unfold generate_legal
  exact swapFilter_perm _ _

/-- C4 (counterexample): in posG the black queen on e8 pins the white rook on
e4, so the mover's pinned bitboard is nonzero; the pseudo-legal knight move
b1-a3 starts on an unpinned square, not on the king square, and is not en
passant, yet the guard of line 409 is still true for it — the code tests
whether the pinned bitboard is nonzero, not whether the move's own origin is
a pinned piece.  This refutes the claim that the legality test is skipped
unless the origin is pinned, the origin is the king square, or the move is
en passant. -/
theorem claim_C4_cex :
    (⟨1, 16, MoveKind.normal⟩ : Move) ∈ generate_non_evasions posG
    ∧ posG.checkers = 0
    ∧ legal_test_needed (posG.pinned_pieces posG.stm) (posG.square_of posG.stm KING)
        ⟨1, 16, MoveKind.normal⟩ = true
    ∧ posG.pinned_pieces posG.stm &&& sq_bb 1 = 0
    ∧ (1 : Nat) ≠ posG.square_of posG.stm KING
    ∧ (MoveKind.normal : MoveKind) ≠ MoveKind.enpassant := by
  exact ⟨by decide, by decide, by decide, by decide, by decide, by decide⟩

/-! ### Claim C5 -/

/-- C5 (amended): the discovered-check sweep of generate_quiet_checks emits
moves for exactly the discovered-check candidates that are not pawns —
kings included: a non-king candidate contributes its full non-capturing
attack set, while a king candidate contributes its non-capturing attacks
restricted to squares off the opponent king's queen pseudo-attack lines. -/
theorem claim_C5 (pos : Pos) (ci : CheckInfo) (m : Move) :
    m ∈ dcSweep pos ci ↔
      ∃ f, (f < 64 ∧ ci.dcCandidates.testBit f = true)
        ∧ type_of_p (pos.piece_on f) ≠ PAWN
        ∧ ∃ s, (s < 64 ∧
            (if type_of_p (pos.piece_on f) = KING
             then pos.attacks_from (type_of_p (pos.piece_on f)) f &&& compl64 pos.pieces
                    &&& compl64 (pseudoAttacksBB QUEEN ci.ksq)
             else pos.attacks_from (type_of_p (pos.piece_on f)) f &&& compl64 pos.pieces).testBit s
              = true)
          ∧ m = make_move f s := by
  unfold dcSweep
  rw [mem_flatMap_squaresOf]
  constructor
  · rintro ⟨f, hf, hm⟩
    simp only at hm
    split at hm
    · simp at hm
    · rename_i hpawn
      refine ⟨f, hf, hpawn, ?_⟩
      rw [mem_map_squaresOf] at hm
      obtain ⟨s, hs, he⟩ := hm
      exact ⟨s, hs, he.symm⟩
  · rintro ⟨f, hf, hpawn, s, hs, he⟩
    refine ⟨f, hf, ?_⟩
    simp only
    rw [if_neg hpawn, mem_map_squaresOf]
    exact ⟨s, hs, he.symm⟩

/-- C5 (counterexample): in posF (white rook a4, white king d4, black king
h4) the white king on d4 is a discovered-check candidate, its piece type is
KING, and the sweep emits the king move d4-c3 — so the sweep does emit moves
for king candidates, refuting the claim that it emits moves only for
candidates that are neither pawns nor kings.  (It is also not the full
attack set: the emitted king moves are additionally masked by the opponent
king's queen pseudo-attacks.) -/
theorem claim_C5_cex :
    posF.checkers = 0
    ∧ posF.checkinfo.dcCandidates.testBit 27 = true
    ∧ type_of_p (posF.piece_on 27) = KING
    ∧ (27 : Nat) = posF.square_of posF.stm KING
    ∧ (⟨27, 18, MoveKind.normal⟩ : Move) ∈ dcSweep posF posF.checkinfo
    ∧ (⟨27, 18, MoveKind.normal⟩ : Move) ∈ generate_quiet_checks posF := by
  exact ⟨by decide, by decide, by decide, by decide, by decide, by decide⟩

/-! ### Claim C8: helper lemmas -/

theorem bit_lt_64_of_lt {x i : Nat} (hx : x < 2 ^ 64) (h : x.testBit i = true) : i < 64 := by
  by_contra hge
  have h1 := Nat.testBit_implies_ge h
  have h2 : (2 : Nat) ^ 64 ≤ 2 ^ i := Nat.pow_le_pow_right (by norm_num) (by omega)
  omega

theorem land_eq_zero_bits {a b : Nat} (h : a &&& b = 0) {i : Nat}
    (ha : a.testBit i = true) (hb : b.testBit i = true) : False :=
  absurd h (land_ne_zero_iff.mpr ⟨i, ha, hb⟩)

theorem nodup_map_squaresOf_from {b : Nat} {g : Nat → Move} (hg : ∀ s, (g s).fromSq = s) :
    ((squaresOf b).map g).Nodup :=
  List.Nodup.map_on (fun x _ y _ hxy => by rw [← hg x, ← hg y, hxy]) (nodup_squaresOf b)

/-- Structural facts about the members of the discovered-check sweep. -/
theorem mem_dcSweep {pos : Pos} {ci : CheckInfo} {m : Move} (h : m ∈ dcSweep pos ci) :
    ci.dcCandidates.testBit m.fromSq = true
    ∧ type_of_p (pos.piece_on m.fromSq) ≠ PAWN
    ∧ m.kind = MoveKind.normal := by
  unfold dcSweep at h
  rw [mem_flatMap_squaresOf] at h
  obtain ⟨f, ⟨hlt, hf⟩, hm⟩ := h
  simp only at hm
  split at hm
  · simp at hm
  · rename_i hpawn
    rw [mem_map_squaresOf] at hm
    obtain ⟨s, -, he⟩ := hm
    subst he
    exact ⟨hf, hpawn, rfl⟩

theorem pawnEnemies_sub {pos : Pos} {target : Nat} {Us Ty i : Nat} (hTy : Ty ≠ CAPTURES)
    (h : (pawnEnemies pos target Us Ty).testBit i = true) :
    (pos.pieces_c (ThemC Us)).testBit i = true := by
  unfold pawnEnemies at h
  by_cases hE : Ty = EVASIONS
  · rw [if_pos hE] at h
    exact testBit_land_left h
  · rw [if_neg hE, if_neg hTy] at h
    exact h

theorem gc_nodup (pos : Pos) (us : Nat) (ci : Option CheckInfo) (Cr : Nat) (Checks C960 : Bool) :
    (generate_castling pos us ci Cr Checks C960).Nodup := by
  unfold generate_castling
  repeat' (split <;> try simp)

/-- Every pawn move generated for white originates on a white pawn. -/
theorem pawn_from_w {pos : Pos} {target : Nat} {ci : Option CheckInfo} {Ty : Nat} {m : Move}
    (h : m ∈ generate_pawn_moves pos target ci WHITE Ty) :
    (pos.pieces_cp WHITE PAWN).testBit m.fromSq = true := by
  rcases List.mem_append.mp h with h1 | h1
  · rcases List.mem_append.mp h1 with h2 | h2
    · exact testBit_land_left (mem_pawn_pushes_w h2).2.2.1
    · obtain ⟨s, -, hcase⟩ := mem_pawn_promotions h2
      rcases hcase with ⟨hs, hmem⟩ | ⟨hs, hmem⟩ | ⟨hs, hmem⟩
      · obtain ⟨-, hf, -⟩ := mem_make_promotions hmem
        have hs9 : (shift_bb 9 (pawnsOn7BB pos WHITE) &&& pawnEnemies pos target WHITE Ty).testBit s
            = true := hs
        obtain ⟨h9, -, hp⟩ := shift_p9_bit (testBit_land_left hs9)
        have hf9 : m.fromSq = sqSub s 9 := hf
        rw [hf9, sqSub_p9]
        exact testBit_land_left hp
      · obtain ⟨-, hf, -⟩ := mem_make_promotions hmem
        have hs7 : (shift_bb 7 (pawnsOn7BB pos WHITE) &&& pawnEnemies pos target WHITE Ty).testBit s
            = true := hs
        obtain ⟨h7, -, hp⟩ := shift_p7_bit (testBit_land_left hs7)
        have hf7 : m.fromSq = sqSub s 7 := hf
        rw [hf7, sqSub_p7]
        exact testBit_land_left hp
      · obtain ⟨-, hf, -⟩ := mem_make_promotions hmem
        have hs8 : (shift_bb 8 (pawnsOn7BB pos WHITE) &&& promoEmpty pos target Ty).testBit s
            = true := hs
        obtain ⟨h8, -, hp⟩ := shift_p8_bit (testBit_land_left hs8)
        have hf8 : m.fromSq = sqSub s 8 := hf
        rw [hf8, sqSub_p8]
        exact testBit_land_left hp
  · rcases mem_pawn_caps_ep h1 with ⟨s, -, hs, he⟩ | ⟨s, -, hs, he⟩ | ⟨s, -, hs, he, -, -⟩
    · subst he
      have hs9 : (shift_bb 9 (pawnsNotOn7BB pos WHITE) &&& pawnEnemies pos target WHITE Ty).testBit s
          = true := hs
      obtain ⟨h9, -, hp⟩ := shift_p9_bit (testBit_land_left hs9)
      have hf9 : (make_move (sqSub s (RightD WHITE)) s).fromSq = sqSub s 9 := rfl
      rw [hf9, sqSub_p9]
      exact testBit_land_left hp
    · subst he
      have hs7 : (shift_bb 7 (pawnsNotOn7BB pos WHITE) &&& pawnEnemies pos target WHITE Ty).testBit s
          = true := hs
      obtain ⟨h7, -, hp⟩ := shift_p7_bit (testBit_land_left hs7)
      have hf7 : (make_move (sqSub s (LeftD WHITE)) s).fromSq = sqSub s 7 := rfl
      rw [hf7, sqSub_p7]
      exact testBit_land_left hp
    · subst he
      exact testBit_land_left (testBit_land_left hs)

/-- Every pawn move generated for black originates on a black pawn. -/
theorem pawn_from_b {pos : Pos} {target : Nat} {ci : Option CheckInfo} {Ty : Nat} {m : Move}
    (h : m ∈ generate_pawn_moves pos target ci BLACK Ty) :
    (pos.pieces_cp BLACK PAWN).testBit m.fromSq = true := by
  rcases List.mem_append.mp h with h1 | h1
  · rcases List.mem_append.mp h1 with h2 | h2
    · exact testBit_land_left (mem_pawn_pushes_b h2).2.2.1
    · obtain ⟨s, -, hcase⟩ := mem_pawn_promotions h2
      rcases hcase with ⟨hs, hmem⟩ | ⟨hs, hmem⟩ | ⟨hs, hmem⟩
      · obtain ⟨-, hf, -⟩ := mem_make_promotions hmem
        have hs9 : (shift_bb (-9) (pawnsOn7BB pos BLACK) &&& pawnEnemies pos target BLACK Ty).testBit s
            = true := hs
        obtain ⟨-, hp⟩ := shift_m9_bit (testBit_land_left hs9)
        have hf9 : m.fromSq = sqSub s (-9) := hf
        rw [hf9, sqSub_m9]
        exact testBit_land_left hp
      · obtain ⟨-, hf, -⟩ := mem_make_promotions hmem
        have hs7 : (shift_bb (-7) (pawnsOn7BB pos BLACK) &&& pawnEnemies pos target BLACK Ty).testBit s
            = true := hs
        obtain ⟨-, hp⟩ := shift_m7_bit (testBit_land_left hs7)
        have hf7 : m.fromSq = sqSub s (-7) := hf
        rw [hf7, sqSub_m7]
        exact testBit_land_left hp
      · obtain ⟨-, hf, -⟩ := mem_make_promotions hmem
        have hs8 : (shift_bb (-8) (pawnsOn7BB pos BLACK) &&& promoEmpty pos target Ty).testBit s
            = true := hs
        obtain ⟨-, hp⟩ := shift_m8_bit (testBit_land_left hs8)
        have hf8 : m.fromSq = sqSub s (-8) := hf
        rw [hf8, sqSub_m8]
        exact testBit_land_left hp
  · rcases mem_pawn_caps_ep h1 with ⟨s, -, hs, he⟩ | ⟨s, -, hs, he⟩ | ⟨s, -, hs, he, -, -⟩
    · subst he
      have hs9 : (shift_bb (-9) (pawnsNotOn7BB pos BLACK) &&& pawnEnemies pos target BLACK Ty).testBit s
          = true := hs
      obtain ⟨-, hp⟩ := shift_m9_bit (testBit_land_left hs9)
      have hf9 : (make_move (sqSub s (RightD BLACK)) s).fromSq = sqSub s (-9) := rfl
      rw [hf9, sqSub_m9]
      exact testBit_land_left hp
    · subst he
      have hs7 : (shift_bb (-7) (pawnsNotOn7BB pos BLACK) &&& pawnEnemies pos target BLACK Ty).testBit s
          = true := hs
      obtain ⟨-, hp⟩ := shift_m7_bit (testBit_land_left hs7)
      have hf7 : (make_move (sqSub s (LeftD BLACK)) s).fromSq = sqSub s (-7) := rfl
      rw [hf7, sqSub_m7]
      exact testBit_land_left hp
    · subst he
      exact testBit_land_left (testBit_land_left hs)

/-! ### Claim C8: no duplicates within each pawn section -/

theorem nodup_pawn_pushes_w (pos : Pos) (target : Nat) (ci : Option CheckInfo) (Ty : Nat) :
    (pawn_pushes pos target ci WHITE Ty).Nodup := by
  unfold pawn_pushes
  split
  · simp
  · rw [List.nodup_append]
    refine ⟨nodup_map_squaresOf (fun s => rfl), nodup_map_squaresOf (fun s => rfl), ?_⟩
    intro m hm1 hm2
    rw [mem_map_squaresOf] at hm1 hm2
    obtain ⟨s1, ⟨-, hs1⟩, he1⟩ := hm1
    obtain ⟨s2, ⟨-, hs2⟩, he2⟩ := hm2
    obtain ⟨b8, -, -⟩ := pushBB1_w hs1
    obtain ⟨b24, -, -⟩ := pushBB2_w hs2
    have he : make_move (sqSub s1 (UpD WHITE)) s1
        = make_move (sqSub (sqSub s2 (UpD WHITE)) (UpD WHITE)) s2 := he1.trans he2.symm
    have he2 : make_move (sqSub s1 8) s1 = make_move (sqSub (sqSub s2 8) 8) s2 := he
    simp only [make_move, Move.mk.injEq, sqSub_p8] at he2
    obtain ⟨hf, ht, -⟩ := he2
    omega

theorem nodup_pawn_pushes_b (pos : Pos) (target : Nat) (ci : Option CheckInfo) (Ty : Nat) :
    (pawn_pushes pos target ci BLACK Ty).Nodup := by
  unfold pawn_pushes
  split
  · simp
  · rw [List.nodup_append]
    refine ⟨nodup_map_squaresOf (fun s => rfl), nodup_map_squaresOf (fun s => rfl), ?_⟩
    intro m hm1 hm2
    rw [mem_map_squaresOf] at hm1 hm2
    obtain ⟨s1, ⟨-, hs1⟩, he1⟩ := hm1
    obtain ⟨s2, ⟨-, hs2⟩, he2⟩ := hm2
    have he : make_move (sqSub s1 (UpD BLACK)) s1
        = make_move (sqSub (sqSub s2 (UpD BLACK)) (UpD BLACK)) s2 := he1.trans he2.symm
    have he2 : make_move (sqSub s1 (-8)) s1 = make_move (sqSub (sqSub s2 (-8)) (-8)) s2 := he
    simp only [make_move, Move.mk.injEq, sqSub_m8] at he2
    obtain ⟨hf, ht, -⟩ := he2
    omega

theorem promo_dis_core {b1 b2 : Nat} {D1 D2 : Int} {ci : Option CheckInfo} {Ty : Nat} {m : Move}
    (h1 : m ∈ (squaresOf b1).flatMap (fun tsq => make_promotions tsq ci Ty D1))
    (h2 : m ∈ (squaresOf b2).flatMap (fun tsq => make_promotions tsq ci Ty D2)) :
    ∃ s, s < 64 ∧ b1.testBit s = true ∧ b2.testBit s = true ∧ sqSub s D1 = sqSub s D2 := by
  rw [mem_flatMap_squaresOf] at h1 h2
  obtain ⟨s1, ⟨hl1, hb1⟩, hm1⟩ := h1
  obtain ⟨s2, ⟨hl2, hb2⟩, hm2⟩ := h2
  obtain ⟨ht1, hf1, -⟩ := mem_make_promotions hm1
  obtain ⟨ht2, hf2, -⟩ := mem_make_promotions hm2
  have hs : s1 = s2 := ht1.symm.trans ht2
  subst hs
  exact ⟨s1, hl1, hb1, hb2, hf1.symm.trans hf2⟩

theorem nodup_promo_chunk {b : Nat} {ci : Option CheckInfo} {Ty : Nat} {D : Int} :
    ((squaresOf b).flatMap (fun tsq => make_promotions tsq ci Ty D)).Nodup :=
  nodup_flatMap_squaresOf Move.toSq (fun s => nodup_make_promotions s ci Ty D)
    (fun s m hm => (mem_make_promotions hm).1)

theorem nodup_pawn_promotions_w (pos : Pos) (target : Nat) (ci : Option CheckInfo) (Ty : Nat) :
    (pawn_promotions pos target ci WHITE Ty).Nodup := by
  simp only [pawn_promotions]
  split
  · rw [List.nodup_append]
    refine ⟨?_, nodup_promo_chunk, ?_⟩
    · rw [List.nodup_append]
      refine ⟨nodup_promo_chunk, nodup_promo_chunk, ?_⟩
      intro m hm1 hm2
      obtain ⟨s, hlt, hb1, hb2, hff⟩ := promo_dis_core hm1 hm2
      have hb1e : (shift_bb 9 (pawnsOn7BB pos WHITE) &&& pawnEnemies pos target WHITE Ty).testBit s
          = true := hb1
      obtain ⟨h9, -, -⟩ := shift_p9_bit (testBit_land_left hb1e)
      have hffe : sqSub s 9 = sqSub s 7 := hff
      rw [sqSub_p9, sqSub_p7] at hffe
      omega
    · intro m hm1 hm3
      rcases List.mem_append.mp hm1 with hm2 | hm2
      · obtain ⟨s, hlt, hb1, hb2, hff⟩ := promo_dis_core hm2 hm3
        have hb1e : (shift_bb 9 (pawnsOn7BB pos WHITE) &&& pawnEnemies pos target WHITE Ty).testBit s
            = true := hb1
        obtain ⟨h9, -, -⟩ := shift_p9_bit (testBit_land_left hb1e)
        have hffe : sqSub s 9 = sqSub s 8 := hff
        rw [sqSub_p9, sqSub_p8] at hffe
        omega
      · obtain ⟨s, hlt, hb1, hb2, hff⟩ := promo_dis_core hm2 hm3
        have hb2e : (shift_bb 8 (pawnsOn7BB pos WHITE) &&& promoEmpty pos target Ty).testBit s
            = true := hb2
        obtain ⟨h8, -, -⟩ := shift_p8_bit (testBit_land_left hb2e)
        have hffe : sqSub s 7 = sqSub s 8 := hff
        rw [sqSub_p7, sqSub_p8] at hffe
        omega
  · simp

theorem nodup_pawn_promotions_b (pos : Pos) (target : Nat) (ci : Option CheckInfo) (Ty : Nat) :
    (pawn_promotions pos target ci BLACK Ty).Nodup := by
  simp only [pawn_promotions]
  split
  · rw [List.nodup_append]
    refine ⟨?_, nodup_promo_chunk, ?_⟩
    · rw [List.nodup_append]
      refine ⟨nodup_promo_chunk, nodup_promo_chunk, ?_⟩
      intro m hm1 hm2
      obtain ⟨s, hlt, hb1, hb2, hff⟩ := promo_dis_core hm1 hm2
      have hffe : sqSub s (-9) = sqSub s (-7) := hff
      rw [sqSub_m9, sqSub_m7] at hffe
      omega
    · intro m hm1 hm3
      rcases List.mem_append.mp hm1 with hm2 | hm2
      · obtain ⟨s, hlt, hb1, hb2, hff⟩ := promo_dis_core hm2 hm3
        have hffe : sqSub s (-9) = sqSub s (-8) := hff
        rw [sqSub_m9, sqSub_m8] at hffe
        omega
      · obtain ⟨s, hlt, hb1, hb2, hff⟩ := promo_dis_core hm2 hm3
        have hffe : sqSub s (-7) = sqSub s (-8) := hff
        rw [sqSub_m7, sqSub_m8] at hffe
        omega
  · simp

theorem nodup_pawn_caps_ep_w (pos : Pos) (target : Nat) (ci : Option CheckInfo) (Ty : Nat) :
    (pawn_caps_ep pos target ci WHITE Ty).Nodup := by
  simp only [pawn_caps_ep]
  split
  · rw [List.nodup_append]
    refine ⟨?_, ?_, ?_⟩
    · rw [List.nodup_append]
      refine ⟨nodup_map_squaresOf (fun s => rfl), nodup_map_squaresOf (fun s => rfl), ?_⟩
      intro m hm1 hm2
      rw [mem_map_squaresOf] at hm1 hm2
      obtain ⟨s1, ⟨-, hs1⟩, he1⟩ := hm1
      obtain ⟨s2, ⟨-, hs2⟩, he2⟩ := hm2
      have hs1e : (shift_bb 9 (pawnsNotOn7BB pos WHITE) &&& pawnEnemies pos target WHITE Ty).testBit s1
          = true := hs1
      obtain ⟨h9, -, -⟩ := shift_p9_bit (testBit_land_left hs1e)
      have he : make_move (sqSub s1 9) s1 = make_move (sqSub s2 7) s2 := he1.trans he2.symm
      simp only [make_move, Move.mk.injEq, sqSub_p9, sqSub_p7] at he
      obtain ⟨hf, ht, -⟩ := he
      omega
    · split
      · split
        · simp
        · exact nodup_map_squaresOf_from (fun s => rfl)
      · simp
    · intro m hm1 hm2
      have hk1 : m.kind = MoveKind.normal := by
        rcases List.mem_append.mp hm1 with h2 | h2 <;>
        · rw [mem_map_squaresOf] at h2
          obtain ⟨s, -, he⟩ := h2
          subst he
          rfl
      have hk2 : m.kind = MoveKind.enpassant := by
        split at hm2
        · split at hm2
          · simp at hm2
          · rw [mem_map_squaresOf] at hm2
            obtain ⟨s, -, he⟩ := hm2
            subst he
            rfl
        · simp at hm2
      rw [hk1] at hk2
      exact absurd hk2 (by simp)
  · simp

theorem nodup_pawn_caps_ep_b (pos : Pos) (target : Nat) (ci : Option CheckInfo) (Ty : Nat) :
    (pawn_caps_ep pos target ci BLACK Ty).Nodup := by
  simp only [pawn_caps_ep]
  split
  · rw [List.nodup_append]
    refine ⟨?_, ?_, ?_⟩
    · rw [List.nodup_append]
      refine ⟨nodup_map_squaresOf (fun s => rfl), nodup_map_squaresOf (fun s => rfl), ?_⟩
      intro m hm1 hm2
      rw [mem_map_squaresOf] at hm1 hm2
      obtain ⟨s1, ⟨-, hs1⟩, he1⟩ := hm1
      obtain ⟨s2, ⟨-, hs2⟩, he2⟩ := hm2
      have he : make_move (sqSub s1 (-9)) s1 = make_move (sqSub s2 (-7)) s2 := he1.trans he2.symm
      simp only [make_move, Move.mk.injEq, sqSub_m9, sqSub_m7] at he
      obtain ⟨hf, ht, -⟩ := he
      omega
    · split
      · split
        · simp
        · exact nodup_map_squaresOf_from (fun s => rfl)
      · simp
    · intro m hm1 hm2
      have hk1 : m.kind = MoveKind.normal := by
        rcases List.mem_append.mp hm1 with h2 | h2 <;>
        · rw [mem_map_squaresOf] at h2
          obtain ⟨s, -, he⟩ := h2
          subst he
          rfl
      have hk2 : m.kind = MoveKind.enpassant := by
        split at hm2
        · split at hm2
          · simp at hm2
          · rw [mem_map_squaresOf] at hm2
            obtain ⟨s, -, he⟩ := hm2
            subst he
            rfl
        · simp at hm2
      rw [hk1] at hk2
      exact absurd hk2 (by simp)
  · simp

theorem nodup_generate_pawn_moves_w (pos : Pos) (target : Nat) (ci : Option CheckInfo) (Ty : Nat)
    (hsub : pos.pieces_c (ThemC WHITE) &&& compl64 pos.pieces = 0) :
    (generate_pawn_moves pos target ci WHITE Ty).Nodup := by
  unfold generate_pawn_moves
  rw [List.nodup_append]
  refine ⟨?_, nodup_pawn_caps_ep_w pos target ci Ty, ?_⟩
  · rw [List.nodup_append]
    refine ⟨nodup_pawn_pushes_w pos target ci Ty, nodup_pawn_promotions_w pos target ci Ty, ?_⟩
    intro m hm1 hm2
    have hk := pawn_pushes_kind hm1
    obtain ⟨s, -, hcase⟩ := mem_pawn_promotions hm2
    rcases hcase with ⟨-, hmem⟩ | ⟨-, hmem⟩ | ⟨-, hmem⟩ <;>
    · obtain ⟨-, -, pt, hkp⟩ := mem_make_promotions hmem
      rw [hk] at hkp
      exact absurd hkp (by simp)
  · intro m hm1 hmc
    rcases List.mem_append.mp hm1 with hpush | hpromo
    · have hk := pawn_pushes_kind hpush
      obtain ⟨-, -, -, hemp⟩ := mem_pawn_pushes_w hpush
      have hTyC : Ty ≠ CAPTURES := by
        intro hc
        rw [hc] at hpush
        rw [show pawn_pushes pos target ci WHITE CAPTURES = ([] : List Move) from by
          simp [pawn_pushes]] at hpush
        simp at hpush
      have hTyCEN : Ty = CAPTURES ∨ Ty = EVASIONS ∨ Ty = NON_EVASIONS := by
        by_contra hcon
        rw [show pawn_caps_ep pos target ci WHITE Ty = ([] : List Move) from by
          unfold pawn_caps_ep; rw [if_neg hcon]] at hmc
        simp at hmc
      have hempE : pushEmpty pos target Ty = compl64 pos.pieces := by
        rcases hTyCEN with h | h | h
        · exact absurd h hTyC
        · subst h; unfold pushEmpty; rw [if_neg (by decide)]
        · subst h; unfold pushEmpty; rw [if_neg (by decide)]
      rw [hempE] at hemp
      rcases mem_pawn_caps_ep hmc with ⟨s, -, hs, he⟩ | ⟨s, -, hs, he⟩ | ⟨s, -, -, he, -, -⟩
      · subst he
        exact land_eq_zero_bits hsub (pawnEnemies_sub hTyC (testBit_land_right hs)) hemp
      · subst he
        exact land_eq_zero_bits hsub (pawnEnemies_sub hTyC (testBit_land_right hs)) hemp
      · subst he
        simp [make_enpassant] at hk
    · obtain ⟨s, -, hcase⟩ := mem_pawn_promotions hpromo
      have hpk : ∃ pt, m.kind = MoveKind.promotion pt := by
        rcases hcase with ⟨-, hmem⟩ | ⟨-, hmem⟩ | ⟨-, hmem⟩ <;> exact (mem_make_promotions hmem).2.2
      obtain ⟨pt, hk⟩ := hpk
      rcases mem_pawn_caps_ep hmc with ⟨s2, -, -, he⟩ | ⟨s2, -, -, he⟩ | ⟨s2, -, -, he, -, -⟩ <;>
      · subst he
        simp [make_move, make_enpassant] at hk

theorem nodup_generate_pawn_moves_b (pos : Pos) (target : Nat) (ci : Option CheckInfo) (Ty : Nat)
    (hsub : pos.pieces_c (ThemC BLACK) &&& compl64 pos.pieces = 0) :
    (generate_pawn_moves pos target ci BLACK Ty).Nodup := by
  unfold generate_pawn_moves
  rw [List.nodup_append]
  refine ⟨?_, nodup_pawn_caps_ep_b pos target ci Ty, ?_⟩
  · rw [List.nodup_append]
    refine ⟨nodup_pawn_pushes_b pos target ci Ty, nodup_pawn_promotions_b pos target ci Ty, ?_⟩
    intro m hm1 hm2
    have hk := pawn_pushes_kind hm1
    obtain ⟨s, -, hcase⟩ := mem_pawn_promotions hm2
    rcases hcase with ⟨-, hmem⟩ | ⟨-, hmem⟩ | ⟨-, hmem⟩ <;>
    · obtain ⟨-, -, pt, hkp⟩ := mem_make_promotions hmem
      rw [hk] at hkp
      exact absurd hkp (by simp)
  · intro m hm1 hmc
    rcases List.mem_append.mp hm1 with hpush | hpromo
    · have hk := pawn_pushes_kind hpush
      obtain ⟨-, -, -, hemp⟩ := mem_pawn_pushes_b hpush
      have hTyC : Ty ≠ CAPTURES := by
        intro hc
        rw [hc] at hpush
        rw [show pawn_pushes pos target ci BLACK CAPTURES = ([] : List Move) from by
          simp [pawn_pushes]] at hpush
        simp at hpush
      have hTyCEN : Ty = CAPTURES ∨ Ty = EVASIONS ∨ Ty = NON_EVASIONS := by
        by_contra hcon
        rw [show pawn_caps_ep pos target ci BLACK Ty = ([] : List Move) from by
          unfold pawn_caps_ep; rw [if_neg hcon]] at hmc
        simp at hmc
      have hempE : pushEmpty pos target Ty = compl64 pos.pieces := by
        rcases hTyCEN with h | h | h
        · exact absurd h hTyC
        · subst h; unfold pushEmpty; rw [if_neg (by decide)]
        · subst h; unfold pushEmpty; rw [if_neg (by decide)]
      rw [hempE] at hemp
      rcases mem_pawn_caps_ep hmc with ⟨s, -, hs, he⟩ | ⟨s, -, hs, he⟩ | ⟨s, -, -, he, -, -⟩
      · subst he
        exact land_eq_zero_bits hsub (pawnEnemies_sub hTyC (testBit_land_right hs)) hemp
      · subst he
        exact land_eq_zero_bits hsub (pawnEnemies_sub hTyC (testBit_land_right hs)) hemp
      · subst he
        simp [make_enpassant] at hk
    · obtain ⟨s, -, hcase⟩ := mem_pawn_promotions hpromo
      have hpk : ∃ pt, m.kind = MoveKind.promotion pt := by
        rcases hcase with ⟨-, hmem⟩ | ⟨-, hmem⟩ | ⟨-, hmem⟩ <;> exact (mem_make_promotions hmem).2.2
      obtain ⟨pt, hk⟩ := hpk
      rcases mem_pawn_caps_ep hmc with ⟨s2, -, -, he⟩ | ⟨s2, -, -, he⟩ | ⟨s2, -, -, he, -, -⟩ <;>
      · subst he
        simp [make_move, make_enpassant] at hk

/-- Origin-based classifier used to separate the chunks of generate_all:
castling moves get class 0, every other move the piece type standing on its
origin square. -/
def moveClass (pos : Pos) (m : Move) : Nat :=
  if m.kind = MoveKind.castling then 0 else type_of_p (pos.piece_on m.fromSq)

theorem nodup_append_classes {g : Move → Nat} {l1 l2 : List Move} {cs1 cs2 : List Nat}
    (n1 : l1.Nodup) (n2 : l2.Nodup)
    (h1 : ∀ m ∈ l1, g m ∈ cs1) (h2 : ∀ m ∈ l2, g m ∈ cs2)
    (hd : ∀ c ∈ cs1, c ∉ cs2) :
    (l1 ++ l2).Nodup ∧ ∀ m ∈ l1 ++ l2, g m ∈ cs1 ++ cs2 := by
  constructor
  · rw [List.nodup_append]
    refine ⟨n1, n2, ?_⟩
    intro m hm1 hm2
    exact hd _ (h1 m hm1) (h2 m hm2)
  · intro m hm
    rcases List.mem_append.mp hm with h | h
    · exact List.mem_append.mpr (Or.inl (h1 m h))
    · exact List.mem_append.mpr (Or.inr (h2 m h))

theorem nodup_flatMap_key {l : List Nat} {g : Nat → List Move} (key : Move → Nat)
    (hl : l.Nodup) (h1 : ∀ s, (g s).Nodup) (h2 : ∀ s m, m ∈ g s → key m = s) :
    (l.flatMap g).Nodup := by
  rw [List.nodup_flatMap]
  refine ⟨fun s _ => h1 s, ?_⟩
  refine List.Pairwise.imp ?_ hl
  intro x y hxy m hm1 hm2
  exact hxy (((h2 x m hm1).symm).trans (h2 y m hm2))

theorem nodup_generate_moves (pos : Pos) (us target : Nat) (ci : Option CheckInfo) (Pt : Nat)
    (Checks : Bool) (hnd : (pos.piece_list us Pt).Nodup) :
    (generate_moves pos us target ci Pt Checks).Nodup := by
  unfold generate_moves
  refine nodup_flatMap_key Move.fromSq hnd ?_ ?_
  · intro f
    split
    · simp
    · split
      · simp
      · exact nodup_map_squaresOf (fun s => rfl)
  · intro f m hm
    split at hm
    · simp at hm
    · split at hm
      · simp at hm
      · rw [mem_map_squaresOf] at hm
        obtain ⟨s, -, he⟩ := hm
        subst he
        rfl

theorem nodup_castling_pair (pos : Pos) (us : Nat) (ci : Option CheckInfo) (Checks C960 : Bool)
    (hdr : pos.can_castle_cr (make_castling_right us KING_SIDE) = true →
           pos.can_castle_cr (make_castling_right us QUEEN_SIDE) = true →
           pos.castling_rook_square (make_castling_right us KING_SIDE)
             ≠ pos.castling_rook_square (make_castling_right us QUEEN_SIDE)) :
    (generate_castling pos us ci (make_castling_right us KING_SIDE) Checks C960
     ++ generate_castling pos us ci (make_castling_right us QUEEN_SIDE) Checks C960).Nodup := by
  rw [List.nodup_append]
  refine ⟨gc_nodup _ _ _ _ _ _, gc_nodup _ _ _ _ _ _, ?_⟩
  intro m hm1 hm2
  obtain ⟨he1, hc1⟩ := mem_generate_castling hm1
  obtain ⟨he2, hc2⟩ := mem_generate_castling hm2
  exact hdr hc1 hc2 (congrArg Move.toSq (he1.symm.trans he2))

theorem class_pawn_chunk {pos : Pos} {target : Nat} {ci : Option CheckInfo} {Us Ty : Nat} {m : Move}
    (hwf : wfPos pos) (hUs : Us = WHITE ∨ Us = BLACK)
    (h : m ∈ generate_pawn_moves pos target ci Us Ty) : moveClass pos m = PAWN := by
  have hbit : (pos.pieces_cp Us PAWN).testBit m.fromSq = true := by
    rcases hUs with h' | h' <;> subst h'
    · exact pawn_from_w h
    · exact pawn_from_b h
  have hUs2 : Us < 2 := by rcases hUs with h' | h' <;> subst h' <;> decide
  have hlt : m.fromSq < 64 := bit_lt_64_of_lt (hwf.2.1 Us hUs2 PAWN (by decide)) hbit
  have hty := hwf.2.2.2.2.2.1 Us hUs2 PAWN (by decide) m.fromSq hlt hbit
  unfold moveClass
  rw [if_neg (pawn_not_castling h)]
  exact hty

theorem class_moves_chunk {pos : Pos} {us target : Nat} {ci : Option CheckInfo}
    {Pt : Nat} {Checks : Bool} {m : Move}
    (hwf : wfPos pos) (hus2 : us < 2) (hPt : Pt ∈ allPT)
    (h : m ∈ generate_moves pos us target ci Pt Checks) : moveClass pos m = Pt := by
  obtain ⟨f, hf, s, -, he, -, -⟩ := mem_generate_moves h
  subst he
  have hbit := (hwf.2.2.2.2.1 us hus2 Pt hPt).2 f hf
  have hlt : f < 64 := bit_lt_64_of_lt (hwf.2.1 us hus2 Pt hPt) hbit
  have hty := hwf.2.2.2.2.2.1 us hus2 Pt hPt f hlt hbit
  unfold moveClass
  rw [if_neg (by simp [make_move])]
  exact hty

theorem class_king_chunk {pos : Pos} {Us : Nat} (s : Nat)
    (hwf : wfPos pos) (hUs2 : Us < 2) :
    moveClass pos (make_move (pos.square_of Us KING) s) = KING := by
  have hbit := hwf.2.2.2.2.2.2.1 Us hUs2
  have hlt := bit_lt_64_of_lt (hwf.2.1 Us hUs2 KING (by decide)) hbit
  have hty := hwf.2.2.2.2.2.1 Us hUs2 KING (by decide) _ hlt hbit
  unfold moveClass
  rw [if_neg (by simp [make_move])]
  exact hty

theorem nodup_generate_all (pos : Pos) (target : Nat) (ci : Option CheckInfo) (Us Ty : Nat)
    (hUs : Us = WHITE ∨ Us = BLACK) (hwf : wfPos pos) :
    (generate_all pos target ci Us Ty).Nodup := by
  obtain ⟨hUs2, nA, hclA⟩ : Us < 2 ∧ (generate_pawn_moves pos target ci Us Ty).Nodup
      ∧ ∀ m ∈ generate_pawn_moves pos target ci Us Ty, moveClass pos m = PAWN := by
    rcases hUs with h | h <;> subst h
    · exact ⟨by decide,
        nodup_generate_pawn_moves_w pos target ci Ty (hwf.2.2.1 (ThemC WHITE) (by decide)),
        fun m hm => class_pawn_chunk hwf (Or.inl rfl) hm⟩
    · exact ⟨by decide,
        nodup_generate_pawn_moves_b pos target ci Ty (hwf.2.2.1 (ThemC BLACK) (by decide)),
        fun m hm => class_pawn_chunk hwf (Or.inr rfl) hm⟩
  have hA' : ∀ m ∈ generate_pawn_moves pos target ci Us Ty, moveClass pos m ∈ [PAWN] :=
    fun m hm => by rw [hclA m hm]; simp
  have nB := nodup_generate_moves pos Us target ci KNIGHT (decide (Ty = QUIET_CHECKS))
    (hwf.2.2.2.2.1 Us hUs2 KNIGHT (by decide)).1
  have hB' : ∀ m ∈ generate_moves pos Us target ci KNIGHT (decide (Ty = QUIET_CHECKS)),
      moveClass pos m ∈ [KNIGHT] :=
    fun m hm => by rw [class_moves_chunk hwf hUs2 (by decide) hm]; simp
  have nC := nodup_generate_moves pos Us target ci BISHOP (decide (Ty = QUIET_CHECKS))
    (hwf.2.2.2.2.1 Us hUs2 BISHOP (by decide)).1
  have hC' : ∀ m ∈ generate_moves pos Us target ci BISHOP (decide (Ty = QUIET_CHECKS)),
      moveClass pos m ∈ [BISHOP] :=
    fun m hm => by rw [class_moves_chunk hwf hUs2 (by decide) hm]; simp
  have nD := nodup_generate_moves pos Us target ci ROOK (decide (Ty = QUIET_CHECKS))
    (hwf.2.2.2.2.1 Us hUs2 ROOK (by decide)).1
  have hD' : ∀ m ∈ generate_moves pos Us target ci ROOK (decide (Ty = QUIET_CHECKS)),
      moveClass pos m ∈ [ROOK] :=
    fun m hm => by rw [class_moves_chunk hwf hUs2 (by decide) hm]; simp
  have nE := nodup_generate_moves pos Us target ci QUEEN (decide (Ty = QUIET_CHECKS))
    (hwf.2.2.2.2.1 Us hUs2 QUEEN (by decide)).1
  have hE' : ∀ m ∈ generate_moves pos Us target ci QUEEN (decide (Ty = QUIET_CHECKS)),
      moveClass pos m ∈ [QUEEN] :=
    fun m hm => by rw [class_moves_chunk hwf hUs2 (by decide) hm]; simp
  have nF : (if Ty ≠ QUIET_CHECKS ∧ Ty ≠ EVASIONS then
      (squaresOf (kingAttacksBB (pos.square_of Us KING) &&& target)).map
        (fun tsq => make_move (pos.square_of Us KING) tsq)
    else []).Nodup := by
    split
    · exact nodup_map_squaresOf (fun s => rfl)
    · simp
  have hF' : ∀ m ∈ (if Ty ≠ QUIET_CHECKS ∧ Ty ≠ EVASIONS then
      (squaresOf (kingAttacksBB (pos.square_of Us KING) &&& target)).map
        (fun tsq => make_move (pos.square_of Us KING) tsq)
    else []), moveClass pos m ∈ [KING] := by
    intro m hm
    split at hm
    · rw [mem_map_squaresOf] at hm
      obtain ⟨s, -, he⟩ := hm
      subst he
      rw [class_king_chunk s hwf hUs2]
      simp
    · simp at hm
  have nG : (if Ty ≠ CAPTURES ∧ Ty ≠ EVASIONS ∧ pos.can_castle_c Us = true then
      generate_castling pos Us ci (make_castling_right Us KING_SIDE)
        (decide (Ty = QUIET_CHECKS)) pos.is_chess960
      ++ generate_castling pos Us ci (make_castling_right Us QUEEN_SIDE)
        (decide (Ty = QUIET_CHECKS)) pos.is_chess960
    else []).Nodup := by
    split
    · exact nodup_castling_pair pos Us ci _ _ (hwf.2.2.2.2.2.2.2 Us hUs2)
    · simp
  have hG' : ∀ m ∈ (if Ty ≠ CAPTURES ∧ Ty ≠ EVASIONS ∧ pos.can_castle_c Us = true then
      generate_castling pos Us ci (make_castling_right Us KING_SIDE)
        (decide (Ty = QUIET_CHECKS)) pos.is_chess960
      ++ generate_castling pos Us ci (make_castling_right Us QUEEN_SIDE)
        (decide (Ty = QUIET_CHECKS)) pos.is_chess960
    else []), moveClass pos m ∈ [0] := by
    intro m hm
    split at hm
    · rcases List.mem_append.mp hm with h | h <;>
      · obtain ⟨he, -⟩ := mem_generate_castling h
        subst he
        simp [moveClass, make_castling]
    · simp at hm
  have s1 := nodup_append_classes nA nB hA' hB' (by decide)
  have s2 := nodup_append_classes s1.1 nC s1.2 hC' (by decide)
  have s3 := nodup_append_classes s2.1 nD s2.2 hD' (by decide)
  have s4 := nodup_append_classes s3.1 nE s3.2 hE' (by decide)
  have s5 := nodup_append_classes s4.1 nF s4.2 hF' (by decide)
  have s6 := nodup_append_classes s5.1 nG s5.2 hG' (by decide)
  exact s6.1

theorem nodup_generate (pos : Pos) (Ty : Nat) (hwf : wfPos pos) : (generate pos Ty).Nodup := by
  unfold generate
  split
  · exact nodup_generate_all pos _ none WHITE Ty (Or.inl rfl) hwf
  · exact nodup_generate_all pos _ none BLACK Ty (Or.inr rfl) hwf

theorem nodup_generate_quiet_checks (pos : Pos) (hwf : wfPos pos) :
    (generate_quiet_checks pos).Nodup := by
  simp only [generate_quiet_checks]
  rw [List.nodup_append]
  refine ⟨?_, ?_, ?_⟩
  · unfold dcSweep
    refine nodup_flatMap_squaresOf Move.fromSq ?_ ?_
    · intro f
      simp only
      split
      · simp
      · exact nodup_map_squaresOf (fun s => rfl)
    · intro f m hm
      simp only at hm
      split at hm
      · simp at hm
      · rw [mem_map_squaresOf] at hm
        obtain ⟨s, -, he⟩ := hm
        subst he
        rfl
  · split
    · exact nodup_generate_all pos _ _ WHITE QUIET_CHECKS (Or.inl rfl) hwf
    · exact nodup_generate_all pos _ _ BLACK QUIET_CHECKS (Or.inr rfl) hwf
  · intro m hm1 hm2
    obtain ⟨hdc, hnp, hkn⟩ := mem_dcSweep hm1
    have hg : ∃ Us, (Us = WHITE ∨ Us = BLACK)
        ∧ m ∈ generate_all pos (compl64 pos.pieces) (some pos.checkinfo) Us QUIET_CHECKS := by
      split at hm2
      · exact ⟨WHITE, Or.inl rfl, hm2⟩
      · exact ⟨BLACK, Or.inr rfl, hm2⟩
    obtain ⟨Us, hUs, hm2'⟩ := hg
    have hUs2 : Us < 2 := by rcases hUs with h | h <;> subst h <;> decide
    rcases mem_generate_all hm2' with hP | hp2 | hp2 | hp2 | hp2 | hking | hcast
    · have hbit : (pos.pieces_cp Us PAWN).testBit m.fromSq = true := by
        rcases hUs with h | h <;> subst h
        · exact pawn_from_w hP
        · exact pawn_from_b hP
      have hlt := bit_lt_64_of_lt (hwf.2.1 Us hUs2 PAWN (by decide)) hbit
      exact hnp (hwf.2.2.2.2.2.1 Us hUs2 PAWN (by decide) m.fromSq hlt hbit)
    · obtain ⟨f, -, s, -, he, -, hchk⟩ := mem_generate_moves hp2
      have h0 := hchk (by decide)
      subst he
      exact land_eq_zero_bits h0 hdc (by simp [testBit_sq_bb, make_move])
    · obtain ⟨f, -, s, -, he, -, hchk⟩ := mem_generate_moves hp2
      have h0 := hchk (by decide)
      subst he
      exact land_eq_zero_bits h0 hdc (by simp [testBit_sq_bb, make_move])
    · obtain ⟨f, -, s, -, he, -, hchk⟩ := mem_generate_moves hp2
      have h0 := hchk (by decide)
      subst he
      exact land_eq_zero_bits h0 hdc (by simp [testBit_sq_bb, make_move])
    · obtain ⟨f, -, s, -, he, -, hchk⟩ := mem_generate_moves hp2
      have h0 := hchk (by decide)
      subst he
      exact land_eq_zero_bits h0 hdc (by simp [testBit_sq_bb, make_move])
    · exact hking.1 rfl
    · obtain ⟨-, -, -, hc | hc⟩ := hcast <;>
      · obtain ⟨he, -⟩ := mem_generate_castling hc
        rw [he] at hkn
        simp [make_castling] at hkn

theorem evasions_not_from_king {pos : Pos} {target : Nat} {ci : Option CheckInfo} {Us : Nat}
    {m : Move} (hwf : wfPos pos) (hUs : Us = WHITE ∨ Us = BLACK)
    (h : m ∈ generate_all pos target ci Us EVASIONS)
    (hk : (pos.pieces_cp Us KING).testBit m.fromSq = true) : False := by
  have hUs2 : Us < 2 := by rcases hUs with h' | h' <;> subst h' <;> decide
  rcases mem_generate_all h with hP | hp2 | hp2 | hp2 | hp2 | hking | hcast
  · have hbit : (pos.pieces_cp Us PAWN).testBit m.fromSq = true := by
      rcases hUs with h' | h' <;> subst h'
      · exact pawn_from_w hP
      · exact pawn_from_b hP
    exact land_eq_zero_bits
      (hwf.2.2.2.1 Us hUs2 PAWN (by decide) Us hUs2 KING (by decide) (Or.inr (by decide))) hbit hk
  · obtain ⟨f, hf, s, -, he, -, -⟩ := mem_generate_moves hp2
    have hbit := (hwf.2.2.2.2.1 Us hUs2 KNIGHT (by decide)).2 f hf
    subst he
    exact land_eq_zero_bits
      (hwf.2.2.2.1 Us hUs2 KNIGHT (by decide) Us hUs2 KING (by decide) (Or.inr (by decide))) hbit hk
  · obtain ⟨f, hf, s, -, he, -, -⟩ := mem_generate_moves hp2
    have hbit := (hwf.2.2.2.2.1 Us hUs2 BISHOP (by decide)).2 f hf
    subst he
    exact land_eq_zero_bits
      (hwf.2.2.2.1 Us hUs2 BISHOP (by decide) Us hUs2 KING (by decide) (Or.inr (by decide))) hbit hk
  · obtain ⟨f, hf, s, -, he, -, -⟩ := mem_generate_moves hp2
    have hbit := (hwf.2.2.2.2.1 Us hUs2 ROOK (by decide)).2 f hf
    subst he
    exact land_eq_zero_bits
      (hwf.2.2.2.1 Us hUs2 ROOK (by decide) Us hUs2 KING (by decide) (Or.inr (by decide))) hbit hk
  · obtain ⟨f, hf, s, -, he, -, -⟩ := mem_generate_moves hp2
    have hbit := (hwf.2.2.2.2.1 Us hUs2 QUEEN (by decide)).2 f hf
    subst he
    exact land_eq_zero_bits
      (hwf.2.2.2.1 Us hUs2 QUEEN (by decide) Us hUs2 KING (by decide) (Or.inr (by decide))) hbit hk
  · exact hking.2.1 rfl
  · exact hcast.2.1 rfl

theorem nodup_generate_evasions (pos : Pos) (hwf : wfPos pos) :
    (generate_evasions pos).Nodup := by
  simp only [generate_evasions]
  split
  · exact nodup_map_squaresOf (fun s => rfl)
  · rw [List.nodup_append]
    refine ⟨nodup_map_squaresOf (fun s => rfl), ?_, ?_⟩
    · split
      · exact nodup_generate_all pos _ none WHITE EVASIONS (Or.inl rfl) hwf
      · exact nodup_generate_all pos _ none BLACK EVASIONS (Or.inr rfl) hwf
    · intro m hm1 hm2
      rw [mem_map_squaresOf] at hm1
      obtain ⟨s, -, he⟩ := hm1
      have hk : (pos.pieces_cp pos.stm KING).testBit m.fromSq = true := by
        rw [← he]
        exact hwf.2.2.2.2.2.2.1 pos.stm hwf.1
      split at hm2
      · rename_i hstm
        rw [hstm] at hk
        exact evasions_not_from_king hwf (Or.inl rfl) hm2 hk
      · rename_i hstm
        have hb : pos.stm = BLACK := by
          have h01 : pos.stm = 0 ∨ pos.stm = 1 := by
            have h1 := hwf.1
            omega
          rcases h01 with h | h
          · exact absurd h hstm
          · exact h
        rw [hb] at hk
        exact evasions_not_from_king hwf (Or.inr rfl) hm2 hk

theorem nodup_generate_legal (pos : Pos) (hwf : wfPos pos) :
    (generate_legal pos).Nodup := by
  simp only [generate_legal]
  refine (swapFilter_perm _ _).symm.nodup (List.Nodup.filter _ ?_)
  split
  · exact nodup_generate_evasions pos hwf
  · exact nodup_generate pos NON_EVASIONS hwf

/-- C8: for every position satisfying the structural invariants of the
position representation (wfPos: consistent bitboards and piece lists),
each of the six generators — generate_captures, generate_quiets,
generate_quiet_checks, generate_evasions, generate_non_evasions and
generate_legal — returns a list in which no move value occurs twice. -/
theorem claim_C8 (pos : Pos) (hwf : wfPos pos) :
    (generate_captures pos).Nodup ∧ (generate_quiets pos).Nodup
    ∧ (generate_quiet_checks pos).Nodup ∧ (generate_evasions pos).Nodup
    ∧ (generate_non_evasions pos).Nodup ∧ (generate_legal pos).Nodup :=
  ⟨nodup_generate pos CAPTURES hwf, nodup_generate pos QUIETS hwf,
   nodup_generate_quiet_checks pos hwf, nodup_generate_evasions pos hwf,
   nodup_generate pos NON_EVASIONS hwf, nodup_generate_legal pos hwf⟩

theorem claim_C8_witness :
    wfPos posG
    ∧ ((generate_captures posG).Nodup ∧ (generate_quiets posG).Nodup
       ∧ (generate_quiet_checks posG).Nodup ∧ (generate_evasions posG).Nodup
       ∧ (generate_non_evasions posG).Nodup ∧ (generate_legal posG).Nodup) :=
  ⟨by decide, claim_C8 posG (by decide)⟩

theorem claim_C1_witness :
    (⟨48, 56, MoveKind.promotion QUEEN⟩ : Move) ∈ generate_captures posA
    ∧ ((posA.pieces_c (posA.stm ^^^ 1)).testBit (Move.mk 48 56 (MoveKind.promotion QUEEN)).toSq
          = true
       ∨ (Move.mk 48 56 (MoveKind.promotion QUEEN)).kind = MoveKind.enpassant
       ∨ ∃ pt, (Move.mk 48 56 (MoveKind.promotion QUEEN)).kind = MoveKind.promotion pt) :=
  ⟨by decide, claim_C1 posA ⟨48, 56, MoveKind.promotion QUEEN⟩ (by decide)⟩

theorem claim_C2_witness :
    (⟨49, 56, MoveKind.promotion ROOK⟩ : Move) ∈ generate_quiets posB
    ∧ ((((Move.mk 49 56 (MoveKind.promotion ROOK)).toSq < 64
          ∧ posB.pieces.testBit (Move.mk 49 56 (MoveKind.promotion ROOK)).toSq = false)
        ∨ (∃ pt, (Move.mk 49 56 (MoveKind.promotion ROOK)).kind = MoveKind.promotion pt
             ∧ pt ≠ QUEEN
             ∧ (posB.pieces_c (ThemC posB.stm)).testBit
                 (Move.mk 49 56 (MoveKind.promotion ROOK)).toSq = true)
        ∨ (Move.mk 49 56 (MoveKind.promotion ROOK)).kind = MoveKind.castling)
       ∧ (Move.mk 49 56 (MoveKind.promotion ROOK)).kind ≠ MoveKind.promotion QUEEN
       ∧ (Move.mk 49 56 (MoveKind.promotion ROOK)).kind ≠ MoveKind.enpassant) :=
  ⟨by decide, claim_C2 posB ⟨49, 56, MoveKind.promotion ROOK⟩ (by decide)⟩
